import Mathlib

/-!
Verification of the segment-generation pipeline, download assembler and
session store of the language-audio backend (`backend/app.py`), as a
shallow embedding in Lean.

Modelling conventions:
* Python `str` values are Lean `String`s; the Python-level operations
  (`strip`, `lower`, truthiness of `x or y`, slicing) are defined below on
  `List Char` / `String`.
* JSON dictionaries are embedded as structures whose fields are the keys
  the code actually reads (both snake_case and camelCase spellings where
  the code distinguishes them); a field that is absent from the dict is
  `none`.  Payload entries that are not dictionaries (the code's
  `isinstance(..., dict)` checks) are the `.other` constructor.
* Audio bytes are `List Nat`; `base64.b64encode` / `b64decode` are
  modelled by the executable `b64encode` / `b64decode` below (decoding
  discards non-alphabet characters and fails on bad padding, matching the
  Python library on the inputs that occur here).
* The file system under `sessions/` is an association list from numeric
  directory names to directory contents; a manifest file is either
  readable (parsed) or unreadable, and `shutil.rmtree` removes the entry.
* I/O failures while writing files are modelled by a `WriteOracle`
  deciding whether the n-th write of the call succeeds; an oracle failure
  is the raised exception caught by the handler in `save_session`.
* Calls to the OpenAI client (`_synthesize_audio`) are an opaque
  parameter `synth : String → String → String` (text, language ↦ base64
  audio), since the external service is outside the verified core.
-/

namespace LangAudio

instance {ε α : Type} [DecidableEq ε] [DecidableEq α] : DecidableEq (Except ε α) := fun x y =>
  match x, y with
  | .ok a, .ok b =>
    if h : a = b then .isTrue (by rw [h])
    else .isFalse (fun he => by cases he; exact h rfl)
  | .error a, .error b =>
    if h : a = b then .isTrue (by rw [h])
    else .isFalse (fun he => by cases he; exact h rfl)
  | .ok _, .error _ => .isFalse (fun he => Except.noConfusion he)
  | .error _, .ok _ => .isFalse (fun he => Except.noConfusion he)

/-! ### Python string primitives -/

/-- Whitespace as recognised by Python `str.strip` / regex `\s` (ASCII part). -/
def isWs (c : Char) : Bool := c == ' ' || c == '\t' || c == '\n' || c == '\r'

/-- Drop leading whitespace. -/
def trimLeft (l : List Char) : List Char := l.dropWhile isWs

/-- Python `str.strip`: drop trailing then leading whitespace. -/
def trimChars (l : List Char) : List Char := trimLeft ((trimLeft l.reverse).reverse)

/-- Python `s.strip()`. -/
def pyStrip (s : String) : String := ⟨trimChars s.data⟩

/-- Python `s.lower()` (ASCII). -/
def pyLower (s : String) : String := ⟨s.data.map Char.toLower⟩

/-- Python `a or k` for an optional string `a` (absent key or falsy value
falls through to `k`). -/
def truthyOr (a : Option String) (k : String) : String :=
  match a with
  | some s => if s = "" then k else s
  | none => k

/-- Python `a or k` for an optional list (absent key or empty list falls
through to `k`). -/
def truthyOrList {α : Type} (a : Option (List α)) (k : List α) : List α :=
  match a with
  | some l => if l.isEmpty then k else l
  | none => k

/-- `raw_text.replace("\n", " ")`, character-wise. -/
def nlToSp (c : Char) : Char := if c == '\n' then ' ' else c

/-- `re.sub(r"\s+", " ", ...)`: collapse every run of whitespace to a
single space. -/
def collapseWs : List Char → List Char
  | [] => []
  | c :: cs =>
    if isWs c then ' ' :: collapseWs (cs.dropWhile isWs)
    else c :: collapseWs cs
termination_by l => l.length
decreasing_by
  · exact Nat.lt_succ_of_le (List.dropWhile_sublist isWs).length_le
  · exact Nat.lt_succ_self _

/-! ### Base64 (the parts of `base64` used by the backend) -/

abbrev Bytes := List Nat

/-- The standard base64 alphabet. -/
def b64chars : List Char :=
  "ABCDEFGHIJKLMNOPQRSTUVWXYZabcdefghijklmnopqrstuvwxyz0123456789+/".data

/-- Character of a 6-bit value. -/
def b64char (n : Nat) : Char := b64chars.getD n 'A'

/-- 6-bit value of an alphabet character, `none` for non-alphabet input. -/
def b64charVal (c : Char) : Option Nat :=
  if 65 ≤ c.toNat ∧ c.toNat ≤ 90 then some (c.toNat - 65)
  else if 97 ≤ c.toNat ∧ c.toNat ≤ 122 then some (c.toNat - 97 + 26)
  else if 48 ≤ c.toNat ∧ c.toNat ≤ 57 then some (c.toNat - 48 + 52)
  else if c = '+' then some 62
  else if c = '/' then some 63
  else none

/-- Decode a base64 quad stream (already filtered to alphabet plus `=`);
`none` models the `binascii.Error` on bad padding. -/
def decodeQuads : List Char → Option Bytes
  | [] => some []
  | a :: b :: c :: d :: rest =>
    match b64charVal a, b64charVal b with
    | some va, some vb =>
      if c = '=' then
        if d = '=' ∧ rest = [] then some [va * 4 + vb / 16] else none
      else
        match b64charVal c with
        | some vc =>
          if d = '=' then
            if rest = [] then some [va * 4 + vb / 16, vb % 16 * 16 + vc / 4] else none
          else
            match b64charVal d with
            | some vd =>
              match decodeQuads rest with
              | some bs =>
                some ((va * 4 + vb / 16) :: (vb % 16 * 16 + vc / 4) :: (vc % 4 * 64 + vd) :: bs)
              | none => none
            | none => none
        | none => none
    | _, _ => none
  | _ => none

/-- `base64.b64decode` (lenient mode: non-alphabet characters discarded,
bad padding is an error, surfaced as `none`). -/
def b64decode (s : String) : Option Bytes :=
  decodeQuads (s.data.filter (fun c => (b64charVal c).isSome || c == '='))

/-- Encode bytes three at a time. -/
def encodeTriples : Bytes → List Char
  | [] => []
  | [x] => [b64char (x / 4), b64char (x % 4 * 16), '=', '=']
  | [x, y] => [b64char (x / 4), b64char (x % 4 * 16 + y / 16), b64char (y % 16 * 4), '=']
  | x :: y :: z :: rest =>
    b64char (x / 4) :: b64char (x % 4 * 16 + y / 16) :: b64char (y % 16 * 4 + z / 64) ::
      b64char (z % 64) :: encodeTriples rest

/-- `base64.b64encode(...).decode("utf-8")`. -/
def b64encode (bs : Bytes) : String := ⟨encodeTriples bs⟩

/-- `_decode_audio_bytes`: `None`/empty is `none`, otherwise lenient
base64 decoding with decoding failures mapped to `none`. -/
def decode_audio_bytes (audio_value : Option String) : Option Bytes :=
  match audio_value with
  | none => none
  | some s => if s = "" then none else b64decode s

/-! ### Request payload dictionaries (download / save) -/

/-- A vocab dictionary as read by the download and save handlers. -/
structure VocabDict where
  id : Option String := none
  french : Option String := none
  english : Option String := none
  audio_fr : Option String := none
  audioFr : Option String := none
  audio_en : Option String := none
  audioEn : Option String := none
deriving DecidableEq

/-- A vocab payload entry: a dictionary, or some other JSON value (the
code's `isinstance(vocab, dict)` guard skips `.other`). -/
inductive VocabItem where
  | dict (d : VocabDict)
  | other
deriving DecidableEq

/-- A segment dictionary of the download payload. -/
structure SegDict where
  audio_fr : Option String := none
  audioFr : Option String := none
  audio_en : Option String := none
  audioEn : Option String := none
  key_vocab : Option (List VocabItem) := none
  keyVocab : Option (List VocabItem) := none
deriving DecidableEq

/-- A segment payload entry (non-dicts are skipped by the code). -/
inductive SegItem where
  | dict (d : SegDict)
  | other
deriving DecidableEq

/-- `_get_audio_value item snake_key`: the snake_case value if truthy,
otherwise the camelCase value (`audio_fr ↦ audioFr` etc.); the two
structure fields passed here are the dict entries under those two keys. -/
def get_audio_value (snakeVal camelVal : Option String) : Option String :=
  match snakeVal with
  | some s => if s = "" then camelVal else some s
  | none => camelVal

/-- `_collect_key_vocab`: the `key_vocab` entry if it is a list, else the
`keyVocab` entry if it is a list, else `[]`. -/
def collect_key_vocab (d : SegDict) : List VocabItem :=
  match d.key_vocab with
  | some l => l
  | none =>
    match d.keyVocab with
    | some l => l
    | none => []

/-! ### `/api/download-lesson` (`download_lesson_audio`) -/

/-- The supported download variants (`DOWNLOAD_VARIANTS`). -/
def DOWNLOAD_VARIANTS : List String := ["french-only", "french-english", "french-key-vocab"]

inductive DLErr where
  /-- 400 `"Unsupported download option."` -/
  | unsupportedVariant
  /-- 400 `"Segments are required to build the download."` -/
  | segmentsRequired
  /-- 422 `"Unable to assemble audio with the provided data."` -/
  | emptyResult
deriving DecidableEq

structure DLResult where
  audio_base64 : String
  variant : String
deriving DecidableEq

/-- `if audio: combined.extend(audio)` — append when present and
non-empty. -/
def extendIf (acc : Bytes) (b : Option Bytes) : Bytes :=
  match b with
  | some bs => if bs.isEmpty then acc else acc ++ bs
  | none => acc

/-- Body of the vocab loop of the `french-key-vocab` branch. -/
def vocabStep (acc : Bytes) (v : VocabItem) : Bytes :=
  match v with
  | .other => acc
  | .dict vd =>
    let vocab_fr := decode_audio_bytes (get_audio_value vd.audio_fr vd.audioFr)
    let vocab_en := decode_audio_bytes (get_audio_value vd.audio_en vd.audioEn)
    extendIf (extendIf acc vocab_fr) vocab_en

/-- Body of the segment loop of `download_lesson_audio`, for a given
(already normalised) variant. -/
def assembleStep (variant : String) (acc : Bytes) (seg : SegItem) : Bytes :=
  match seg with
  | .other => acc
  | .dict d =>
    let audio_fr := decode_audio_bytes (get_audio_value d.audio_fr d.audioFr)
    let audio_en := decode_audio_bytes (get_audio_value d.audio_en d.audioEn)
    if variant = "french-only" then extendIf acc audio_fr
    else if variant = "french-english" then
      extendIf (extendIf (extendIf acc audio_fr) audio_en) audio_fr
    else if variant = "french-key-vocab" then
      extendIf ((collect_key_vocab d).foldl vocabStep (extendIf acc audio_fr)) audio_fr
    else acc

/-- The `combined_audio` bytearray after the segment loop. -/
def assembleAudio (variant : String) (segs : List SegItem) : Bytes :=
  segs.foldl (assembleStep variant) []

/-- The JSON body of a `/api/download-lesson` request. -/
structure DLPayload where
  variant : Option String := none
  segments : Option (List SegItem) := none

/-- `download_lesson_audio`: variant is stripped and lowercased, then
validated; segments must be a non-empty list; an empty concatenation is
the 422 error. -/
def download_lesson_audio (data : DLPayload) : Except DLErr DLResult :=
  let variant := pyLower (pyStrip (truthyOr data.variant ""))
  if variant ∈ DOWNLOAD_VARIANTS then
    match data.segments with
    | none => .error .segmentsRequired
    | some segs =>
      if segs.isEmpty then .error .segmentsRequired
      else
        let combined := assembleAudio variant segs
        if combined.isEmpty then .error .emptyResult
        else .ok ⟨b64encode combined, variant⟩
  else .error .unsupportedVariant

/-! ### The segment pipeline (`_build_segments`, translation output part)

`_split_and_translate_sentences` is an external call; its parsed result
is the `List RawPair` input below.  `_synthesize_audio` is the opaque
`synth` parameter. -/

/-- One vocabulary gloss as returned by the translation service. -/
structure RawVocab where
  french : Option String := none
  english : Option String := none
deriving DecidableEq

/-- One sentence pair as returned by the translation service. -/
structure RawPair where
  french : Option String := none
  english : Option String := none
  key_vocab : Option (List RawVocab) := none
deriving DecidableEq

structure BuiltVocab where
  id : String
  french : String
  english : String
  audio_fr : String
  audio_en : String
deriving DecidableEq

structure BuiltSegment where
  id : Nat
  french : String
  english : String
  audio_fr : String
  audio_en : String
  key_vocab : List BuiltVocab
deriving DecidableEq

/-- The inner vocab loop of `_build_segments` for segment index `i`:
entries with empty French or English (after stripping) are skipped, ids
use the `enumerate` index over the raw list. -/
def buildKeyVocab (synth : String → String → String) (i : Nat) (vs : List RawVocab) :
    List BuiltVocab :=
  vs.enum.filterMap (fun jv =>
    let vocab_fr := pyStrip (truthyOr jv.2.french "")
    let vocab_en := pyStrip (truthyOr jv.2.english "")
    if vocab_fr = "" ∨ vocab_en = "" then none
    else
      some { id := toString i ++ "-" ++ toString jv.1,
             french := vocab_fr, english := vocab_en,
             audio_fr := synth vocab_fr "french",
             audio_en := synth vocab_en "english" })

/-- `_build_segments`, from the translation service's sentence pairs:
pairs with empty French or English are skipped, segment ids are the
`enumerate` index. -/
def build_segments (synth : String → String → String) (pairs : List RawPair) :
    List BuiltSegment :=
  pairs.enum.filterMap (fun ip =>
    let french := pyStrip (truthyOr ip.2.french "")
    let english := pyStrip (truthyOr ip.2.english "")
    if french = "" ∨ english = "" then none
    else
      some { id := ip.1, french := french, english := english,
             audio_fr := synth french "french",
             audio_en := synth english "english",
             key_vocab := buildKeyVocab synth ip.1 (ip.2.key_vocab.getD []) })

/-! ### Session storage model -/

/-- A parsed `manifest.json` vocab record.  The camelCase fields exist so
that manifests written by other producers are representable; the save
path always writes the snake_case fields. -/
structure MVocab where
  id : Option String := none
  french : Option String := none
  english : Option String := none
  audio_fr_file : Option String := none
  audio_en_file : Option String := none
  audioFrFile : Option String := none
  audioEnFile : Option String := none
deriving DecidableEq

/-- A parsed `manifest.json` segment record. -/
structure MSegment where
  id : Option Nat := none
  french : Option String := none
  english : Option String := none
  audio_fr_file : Option String := none
  audio_en_file : Option String := none
  audioFrFile : Option String := none
  audioEnFile : Option String := none
  key_vocab : Option (List MVocab) := none
  keyVocab : Option (List MVocab) := none
deriving DecidableEq

/-- A parsed `manifest.json`. -/
structure Manifest where
  title : Option String := none
  raw_text : Option String := none
  segments : Option (List MSegment) := none
deriving DecidableEq

/-- A manifest file on disk: parses, or raises in `json.load`. -/
inductive ManifestFile where
  | readable (m : Manifest)
  | unreadable
deriving DecidableEq

abbrev FileMap := List (String × Bytes)

/-- One numeric session directory: audio files plus optional manifest. -/
structure SessionDir where
  files : FileMap := []
  manifest : Option ManifestFile := none
deriving DecidableEq

/-- The `sessions/` directory: numeric directory names with contents. -/
abbrev Store := List (Nat × SessionDir)

/-- `max(existing numeric directory names, default=0)`. -/
def maxKey (store : Store) : Nat := store.foldr (fun p m => max p.1 m) 0

/-- Python `f"{n:03d}"`. -/
def pad3 (n : Nat) : String :=
  let s := toString n
  ⟨List.replicate (3 - s.length) '0' ++ s.data⟩

def segFrName (i : Nat) : String := "segment_" ++ pad3 i ++ "_fr.mp3"
def segEnName (i : Nat) : String := "segment_" ++ pad3 i ++ "_en.mp3"
def kvFrName (i j : Nat) : String := "segment_" ++ pad3 i ++ "_kv_" ++ pad3 j ++ "_fr.mp3"
def kvEnName (i j : Nat) : String := "segment_" ++ pad3 i ++ "_kv_" ++ pad3 j ++ "_en.mp3"

/-- Decides whether the n-th file write of a call succeeds (models disk
I/O failures). -/
abbrev WriteOracle := Nat → Bool

/-- `_write_audio_file`: missing/empty input and undecodable base64 are
skipped returning `None`; an actual write may fail (oracle), which is the
raised exception (`Option.none` result). -/
def write_audio_file (oracle : WriteOracle) (ctr : Nat) (files : FileMap)
    (filename : String) (audio_base64 : Option String) :
    Option (Nat × FileMap × Option String) :=
  match audio_base64 with
  | none => some (ctr, files, none)
  | some a =>
    if a = "" then some (ctr, files, none)
    else
      match b64decode a with
      | none => some (ctr, files, none)
      | some bytes =>
        if oracle ctr then some (ctr + 1, files ++ [(filename, bytes)], some filename)
        else none

/-- A vocab entry of a save-session request. -/
structure SaveVocab where
  id : Option String := none
  french : Option String := none
  english : Option String := none
  audio_fr : Option String := none
  audio_en : Option String := none
deriving DecidableEq

/-- A segment of a save-session request. -/
structure SaveSegment where
  id : Option Nat := none
  french : Option String := none
  english : Option String := none
  audio_fr : Option String := none
  audio_en : Option String := none
  key_vocab : Option (List SaveVocab) := none
  keyVocab : Option (List SaveVocab) := none
deriving DecidableEq

/-- The JSON body of a `/api/save-session` request. -/
structure SaveRequest where
  rawText : Option String := none
  raw_text : Option String := none
  title : Option String := none
  name : Option String := none
  segments : Option (List SaveSegment) := none
deriving DecidableEq

/-- The vocab loop of `save_session` for segment index `segIdx`, over the
`enumerate`d raw vocab list; threads the write counter and file map. -/
def saveVocabLoop (oracle : WriteOracle) (segIdx : Nat) :
    Nat × FileMap → List (Nat × SaveVocab) → Option (Nat × FileMap × List MVocab)
  | st, [] => some (st.1, st.2, [])
  | st, (j, v) :: rest =>
    let vocab_french := pyStrip (truthyOr v.french "")
    let vocab_english := pyStrip (truthyOr v.english "")
    match write_audio_file oracle st.1 st.2 (kvFrName segIdx j) v.audio_fr with
    | none => none
    | some (c1, f1, frFile) =>
      match write_audio_file oracle c1 f1 (kvEnName segIdx j) v.audio_en with
      | none => none
      | some (c2, f2, enFile) =>
        match saveVocabLoop oracle segIdx (c2, f2) rest with
        | none => none
        | some (c3, f3, entries) =>
          some (c3, f3,
            { id := some (v.id.getD (toString segIdx ++ "-" ++ toString j)),
              french := some vocab_french, english := some vocab_english,
              audio_fr_file := frFile, audio_en_file := enFile } :: entries)

/-- The segment loop of `save_session`, over the `enumerate`d segment
list. -/
def saveSegLoop (oracle : WriteOracle) :
    Nat × FileMap → List (Nat × SaveSegment) → Option (Nat × FileMap × List MSegment)
  | st, [] => some (st.1, st.2, [])
  | st, (i, seg) :: rest =>
    let french := pyStrip (truthyOr seg.french "")
    let english := pyStrip (truthyOr seg.english "")
    match write_audio_file oracle st.1 st.2 (segFrName i) seg.audio_fr with
    | none => none
    | some (c1, f1, frFile) =>
      match write_audio_file oracle c1 f1 (segEnName i) seg.audio_en with
      | none => none
      | some (c2, f2, enFile) =>
        let raw_key_vocab := truthyOrList seg.key_vocab (truthyOrList seg.keyVocab [])
        match saveVocabLoop oracle i (c2, f2) raw_key_vocab.enum with
        | none => none
        | some (c3, f3, kvEntries) =>
          match saveSegLoop oracle (c3, f3) rest with
          | none => none
          | some (c4, f4, msegs) =>
            some (c4, f4,
              { id := some (seg.id.getD i), french := some french, english := some english,
                audio_fr_file := frFile, audio_en_file := enFile,
                key_vocab := some kvEntries } :: msegs)

/-- `shutil.rmtree(session_dir)`. -/
def rmtree (store : Store) (session_id : Nat) : Store :=
  store.filter (fun p => p.1 ≠ session_id)

/-- Write the contents of an existing directory. -/
def setDir (store : Store) (session_id : Nat) (dir : SessionDir) : Store :=
  store.map (fun p => if p.1 = session_id then (p.1, dir) else p)

inductive SaveErr where
  /-- 400 `"Raw text and segments are required to save a session."` -/
  | badRequest
  /-- 500 `"Unable to save session: ..."` (directory removed). -/
  | storageError
deriving DecidableEq

/-- `save_session`: validate, allocate `max+1`, create the directory,
write audio files and the manifest; on any write failure remove the whole
directory and surface the error. -/
def save_session (oracle : WriteOracle) (store : Store) (data : SaveRequest) :
    Except SaveErr Nat × Store :=
  let raw_text := pyStrip (truthyOr data.rawText (truthyOr data.raw_text ""))
  let title := pyStrip (truthyOr data.title (truthyOr data.name ""))
  match data.segments with
  | none => (.error .badRequest, store)
  | some segs =>
    if raw_text = "" ∨ segs.isEmpty then (.error .badRequest, store)
    else
      let session_id := maxKey store + 1
      let store1 : Store := (session_id, {}) :: store
      match saveSegLoop oracle (0, []) segs.enum with
      | none => (.error .storageError, rmtree store1 session_id)
      | some (ctr, files, msegs) =>
        if oracle ctr then
          let manifest : Manifest :=
            { title := some (if title = "" then "Lesson " ++ toString session_id else title),
              raw_text := some raw_text,
              segments := some msegs }
          (.ok session_id, setDir store1 session_id ⟨files, some (.readable manifest)⟩)
        else (.error .storageError, rmtree store1 session_id)

/-! ### `/api/sessions` (`list_sessions`) -/

structure SessionSummary where
  id : Nat
  title : String
  raw_text : String
  preview : String
deriving DecidableEq

/-- Insert into a descending list (used to model
`sorted(names, key=int, reverse=True)`). -/
def insertDesc (n : Nat) : List Nat → List Nat
  | [] => [n]
  | m :: ms => if m < n then n :: m :: ms else m :: insertDesc n ms

/-- Sort descending. -/
def sortDesc : List Nat → List Nat
  | [] => []
  | n :: ns => insertDesc n (sortDesc ns)

/-- The `preview` computation of `list_sessions`: replace newlines by
spaces, collapse whitespace runs, strip, truncate to 160 characters. -/
def previewOf (raw_text : String) : String :=
  ⟨(trimChars (collapseWs (raw_text.data.map nlToSp))).take 160⟩

/-- One list entry built from a readable manifest. -/
def summarize (session_id : Nat) (m : Manifest) : SessionSummary :=
  let raw_text := pyStrip (truthyOr m.raw_text "")
  { id := session_id,
    title := pyStrip (truthyOr m.title ("Lesson " ++ toString session_id)),
    raw_text := raw_text,
    preview := previewOf raw_text }

/-- The loop body of `list_sessions` for one directory name: skip when
the manifest file is absent (`os.path.isfile`) or unreadable
(`json.load` raises), else produce the summary. -/
def sessionEntry (store : Store) (n : Nat) : Option SessionSummary :=
  match store.find? (fun p => p.1 == n) with
  | none => none
  | some q =>
    match q.2.manifest with
    | none => none
    | some .unreadable => none
    | some (.readable m) => some (summarize n m)

/-- `list_sessions`: numeric directory names sorted descending; entries
whose manifest is missing or unreadable are skipped. -/
def list_sessions (store : Store) : List SessionSummary :=
  (sortDesc (store.map (·.1))).filterMap (sessionEntry store)

/-! ### `/api/sessions/<id>` GET (`load_session`) -/

structure LoadedVocab where
  id : Option String
  french : String
  english : String
  audio_fr : Option String
  audio_en : Option String
deriving DecidableEq

structure LoadedSegment where
  id : Nat
  french : String
  english : String
  audio_fr : Option String
  audio_en : Option String
  key_vocab : List LoadedVocab
deriving DecidableEq

structure LoadedSession where
  title : String
  raw_text : String
  segments : List LoadedSegment
deriving DecidableEq

/-- `_read_audio_file_as_base64`: `None`/empty filename or a missing file
yields `None`, otherwise the file's bytes re-encoded as base64. -/
def read_audio_file_as_base64 (files : FileMap) (filename : Option String) : Option String :=
  match filename with
  | none => none
  | some f =>
    if f = "" then none
    else
      match files.find? (fun p => p.1 == f) with
      | none => none
      | some p => some (b64encode p.2)

/-- The vocab rehydration of `load_session` (reads the snake_case
manifest fields only). -/
def loadVocab (files : FileMap) (v : MVocab) : LoadedVocab :=
  { id := v.id,
    french := pyStrip (truthyOr v.french ""),
    english := pyStrip (truthyOr v.english ""),
    audio_fr := read_audio_file_as_base64 files v.audio_fr_file,
    audio_en := read_audio_file_as_base64 files v.audio_en_file }

/-- The segment rehydration of `load_session` (reads the snake_case
manifest fields only; `key_vocab` only when it is a list). -/
def loadSegment (files : FileMap) (index : Nat) (s : MSegment) : LoadedSegment :=
  { id := s.id.getD index,
    french := pyStrip (truthyOr s.french ""),
    english := pyStrip (truthyOr s.english ""),
    audio_fr := read_audio_file_as_base64 files s.audio_fr_file,
    audio_en := read_audio_file_as_base64 files s.audio_en_file,
    key_vocab := (s.key_vocab.getD []).map (loadVocab files) }

inductive LoadErr where
  /-- 404 `"Session not found."` -/
  | notFound
  /-- 500 `"Unable to read session: ..."` -/
  | storageError
deriving DecidableEq

/-- `load_session`. -/
def load_session (store : Store) (session_id : Nat) : Except LoadErr LoadedSession :=
  match store.find? (fun p => p.1 == session_id) with
  | none => .error .notFound
  | some (_, dir) =>
    match dir.manifest with
    | none => .error .notFound
    | some .unreadable => .error .storageError
    | some (.readable m) =>
      .ok { title := pyStrip (truthyOr m.title ("Lesson " ++ toString session_id)),
            raw_text := m.raw_text.getD "",
            segments := (m.segments.getD []).enum.map
              (fun is => loadSegment dir.files is.1 is.2) }

/-! ### `/api/sessions/<id>` PATCH (`update_session`) -/

inductive UpdErr where
  /-- 400 `"Title is required."` -/
  | invalidTitle
  /-- 404 `"Session not found."` -/
  | notFound
  /-- 500 `"Unable to update session: ..."` -/
  | storageError
deriving DecidableEq

/-- `update_session`: re-reads the manifest, replaces its `title`, writes
it back. -/
def update_session (store : Store) (session_id : Nat) (titleArg : Option String) :
    Except UpdErr String × Store :=
  let title := pyStrip (truthyOr titleArg "")
  if title = "" then (.error .invalidTitle, store)
  else
    match store.find? (fun p => p.1 == session_id) with
    | none => (.error .notFound, store)
    | some (_, dir) =>
      match dir.manifest with
      | none => (.error .notFound, store)
      | some .unreadable => (.error .storageError, store)
      | some (.readable m) =>
        (.ok title,
         store.map (fun p =>
           if p.1 = session_id then
             (p.1, { p.2 with manifest := some (.readable { m with title := some title }) })
           else p))

/-! ### Specification-side definitions

These follow the wording of the specification (not the code); the
theorems below relate them to the code-level definitions above. -/

/-- Spec §4.5, `french-english` row: "append `audioFr`, then `audioEn`,
then `audioFr` again", skipping absent/undecodable audio. -/
def frenchEnglishRecipe (seg : SegItem) : Bytes :=
  match seg with
  | .other => []
  | .dict d =>
    let fr := (decode_audio_bytes (get_audio_value d.audio_fr d.audioFr)).getD []
    let en := (decode_audio_bytes (get_audio_value d.audio_en d.audioEn)).getD []
    fr ++ en ++ fr

/-- Spec §4.3: the pre-filter indices of the vocabulary entries that
survive the emptiness filter, within the raw vocabulary list. -/
def survivingVocabIndices (vs : List RawVocab) : List Nat :=
  (vs.enum.filter (fun jv =>
    !decide (pyStrip (truthyOr jv.2.french "") = "" ∨ pyStrip (truthyOr jv.2.english "") = ""))).map (·.1)

/-- Spec §4.4 `list()`: "`preview` is `rawText` with internal whitespace
collapsed to single spaces, truncated to 160 characters". -/
def collapsedPreview (s : String) : String := ⟨(collapseWs s.data).take 160⟩

/-- The oracle under which every file write succeeds. -/
def alwaysOk : WriteOracle := fun _ => true

/-- The file entry created for one audio field during save: present iff
the base64 value decodes. -/
def fileEntry (name : String) (a : Option String) : FileMap :=
  match decode_audio_bytes a with
  | some bs => [(name, bs)]
  | none => []

/-- The files a single vocab entry contributes during save. -/
def vocabFiles (segIdx : Nat) (jv : Nat × SaveVocab) : FileMap :=
  fileEntry (kvFrName segIdx jv.1) jv.2.audio_fr ++ fileEntry (kvEnName segIdx jv.1) jv.2.audio_en

/-- The manifest record written for one vocab entry. -/
def mkMVocabRec (segIdx : Nat) (jv : Nat × SaveVocab) : MVocab :=
  { id := some (jv.2.id.getD (toString segIdx ++ "-" ++ toString jv.1)),
    french := some (pyStrip (truthyOr jv.2.french "")),
    english := some (pyStrip (truthyOr jv.2.english "")),
    audio_fr_file := if (decode_audio_bytes jv.2.audio_fr).isSome then some (kvFrName segIdx jv.1) else none,
    audio_en_file := if (decode_audio_bytes jv.2.audio_en).isSome then some (kvEnName segIdx jv.1) else none }

/-- The raw vocab list save-session reads from a segment payload. -/
def rawKeyVocabOf (seg : SaveSegment) : List SaveVocab :=
  truthyOrList seg.key_vocab (truthyOrList seg.keyVocab [])

/-- The files one indexed segment contributes during save. -/
def segFilesWritten (iseg : Nat × SaveSegment) : FileMap :=
  fileEntry (segFrName iseg.1) iseg.2.audio_fr ++ fileEntry (segEnName iseg.1) iseg.2.audio_en
    ++ (rawKeyVocabOf iseg.2).enum.flatMap (vocabFiles iseg.1)

/-- Number of file writes one audio field causes (1 iff it decodes). -/
def writeCount (a : Option String) : Nat :=
  if (decode_audio_bytes a).isSome then 1 else 0

/-- Number of file writes one save-request vocab entry causes. -/
def vocabWriteCount (v : SaveVocab) : Nat := writeCount v.audio_fr + writeCount v.audio_en

/-- The manifest record written for one indexed segment. -/
def mkMSegmentRec (iseg : Nat × SaveSegment) : MSegment :=
  { id := some (iseg.2.id.getD iseg.1),
    french := some (pyStrip (truthyOr iseg.2.french "")),
    english := some (pyStrip (truthyOr iseg.2.english "")),
    audio_fr_file := if (decode_audio_bytes iseg.2.audio_fr).isSome then some (segFrName iseg.1) else none,
    audio_en_file := if (decode_audio_bytes iseg.2.audio_en).isSome then some (segEnName iseg.1) else none,
    key_vocab := some ((rawKeyVocabOf iseg.2).enum.map (mkMVocabRec iseg.1)) }

/-! Spelling-change helpers for the field-name-duality claim: move every
snake_case field of a payload to its camelCase spelling, and erase the
camelCase fields of a stored manifest. -/

/-- A vocab dict of the download payload with audio fields spelled
camelCase only. -/
def camelizeVocabDict (d : VocabDict) : VocabDict :=
  { d with audio_fr := none, audioFr := d.audio_fr, audio_en := none, audioEn := d.audio_en }

def camelizeVocabItem : VocabItem → VocabItem
  | .dict d => .dict (camelizeVocabDict d)
  | .other => .other

/-- A segment dict of the download payload with all dual-spelling fields
moved to their camelCase spelling. -/
def camelizeSegDict (d : SegDict) : SegDict :=
  { audio_fr := none, audioFr := d.audio_fr,
    audio_en := none, audioEn := d.audio_en,
    key_vocab := none, keyVocab := (d.key_vocab.map (fun l => l.map camelizeVocabItem)) }

def camelizeSegItem : SegItem → SegItem
  | .dict d => .dict (camelizeSegDict d)
  | .other => .other

/-- A download-payload vocab entry that uses snake_case spellings only. -/
def vocabItemSnakeOnly : VocabItem → Bool
  | .dict d => d.audioFr == none && d.audioEn == none
  | .other => true

/-- A download-payload segment that uses snake_case spellings only. -/
def segItemSnakeOnly : SegItem → Bool
  | .dict d =>
    d.audioFr == none && d.audioEn == none && d.keyVocab == none
      && (d.key_vocab.getD []).all vocabItemSnakeOnly
  | .other => true

/-- A save-session segment with `key_vocab` moved to the `keyVocab`
spelling. -/
def altSpellingSaveSegment (s : SaveSegment) : SaveSegment :=
  { s with key_vocab := none, keyVocab := s.key_vocab }

/-- A save-session request with every dual-spelling field moved to its
alternate spelling (`rawText ↦ raw_text`, `title ↦ name`,
`key_vocab ↦ keyVocab`). -/
def altSpellingSaveRequest (r : SaveRequest) : SaveRequest :=
  { rawText := none, raw_text := r.rawText,
    title := none, name := r.title,
    segments := r.segments.map (fun l => l.map altSpellingSaveSegment) }

/-- Erase the camelCase fields of a stored manifest vocab record. -/
def eraseCamelMVocab (v : MVocab) : MVocab :=
  { v with audioFrFile := none, audioEnFile := none }

/-- Erase the camelCase fields of a stored manifest segment record. -/
def eraseCamelMSegment (s : MSegment) : MSegment :=
  { s with
    audioFrFile := none, audioEnFile := none, keyVocab := none,
    key_vocab := s.key_vocab.map (fun l => l.map eraseCamelMVocab) }

/-- Erase the camelCase fields of a stored manifest. -/
def eraseCamelManifest (m : Manifest) : Manifest :=
  { m with segments := m.segments.map (fun l => l.map eraseCamelMSegment) }

def eraseCamelManifestFile : ManifestFile → ManifestFile
  | .readable m => .readable (eraseCamelManifest m)
  | .unreadable => .unreadable

def eraseCamelDir (d : SessionDir) : SessionDir :=
  { d with manifest := d.manifest.map eraseCamelManifestFile }

/-! ## Theorems -/

/-! ### Generic helper lemmas -/

theorem extendIf_eq (acc : Bytes) (b : Option Bytes) : extendIf acc b = acc ++ b.getD [] := by
  cases b with
  | none => simp [extendIf]
  | some bs => cases bs <;> simp [extendIf]

theorem le_maxKey : ∀ {store : Store} {k : Nat} {d : SessionDir}, (k, d) ∈ store → k ≤ maxKey store := by
  intro store
  induction store with
  | nil => intro k d h; cases h
  | cons p rest ih =>
    intro k d h
    rcases List.mem_cons.mp h with h | h
    · cases h; exact Nat.le_max_left _ _
    · exact le_trans (ih h) (Nat.le_max_right _ _)

theorem maxKey_mem_lt (store : Store) : ∀ p ∈ store, p.1 ≠ maxKey store + 1 := by
  intro p hp
  have : (p.1, p.2) ∈ store := hp
  have := le_maxKey this
  omega

theorem rmtree_fresh (store : Store) (d : SessionDir) :
    rmtree ((maxKey store + 1, d) :: store) (maxKey store + 1) = store := by
  unfold rmtree
  rw [List.filter_cons]
  have hhead : decide ((maxKey store + 1, d).1 ≠ maxKey store + 1) = false := by simp
  rw [hhead]
  simp only [Bool.false_eq_true, if_false]
  exact List.filter_eq_self.mpr (fun p hp => by
    simpa using maxKey_mem_lt store p hp)

theorem map_if_ne (sid : Nat) (d : SessionDir) :
    ∀ store : Store, (∀ p ∈ store, p.1 ≠ sid) →
      store.map (fun p => if p.1 = sid then (p.1, d) else p) = store := by
  intro store
  induction store with
  | nil => intro _; rfl
  | cons q rest ih =>
    intro h
    have hq : q.1 ≠ sid := h q (List.mem_cons_self q rest)
    simp only [List.map_cons, if_neg hq, List.cons.injEq, true_and]
    exact ih (fun p hp => h p (List.mem_cons_of_mem q hp))

theorem setDir_fresh (store : Store) (d0 d : SessionDir) :
    setDir ((maxKey store + 1, d0) :: store) (maxKey store + 1) d
      = (maxKey store + 1, d) :: store := by
  unfold setDir
  simp only [List.map_cons, List.cons.injEq]
  exact ⟨by simp, map_if_ne _ d _ (maxKey_mem_lt store)⟩

/-! ### C5 — atomicity of save -/

/-- **C5.** For every create call, if any failure occurs while writing the
session's audio files or the manifest, the session directory is removed
before the error is surfaced: the resulting storage state equals the
state before the call. -/
theorem save_session_error_leaves_store (oracle : WriteOracle) (store : Store)
    (data : SaveRequest) (e : SaveErr)
    (h : (save_session oracle store data).1 = .error e) :
    (save_session oracle store data).2 = store := by
  unfold save_session at h ⊢
  cases hseg : data.segments with
  | none => simp [hseg]
  | some segs =>
    simp only [hseg, List.isEmpty_iff] at h ⊢
    by_cases hval :
        pyStrip (truthyOr data.rawText (truthyOr data.raw_text "")) = "" ∨ segs = []
    · simp [if_pos hval]
    · simp only [if_neg hval] at h ⊢
      cases hloop : saveSegLoop oracle (0, []) segs.enum with
      | none => simp only [hloop]; exact rmtree_fresh store _
      | some r =>
        obtain ⟨ctr, files, msegs⟩ := r
        by_cases horacle : oracle ctr
        · simp [hloop, horacle] at h
        · simp only [hloop, horacle, Bool.false_eq_true, if_false]
          exact rmtree_fresh store _

/-- Witness for C5: with an oracle that fails every write, saving a
one-segment session into an empty store errors and leaves the store
empty. -/
theorem save_session_error_leaves_store_witness :
    (save_session (fun _ => false) []
      { rawText := some "Bonjour", segments := some [{ audio_fr := some "QQ==" }] }).2 = [] :=
  save_session_error_leaves_store (fun _ => false) []
    { rawText := some "Bonjour", segments := some [{ audio_fr := some "QQ==" }] }
    .storageError (by decide)

/-! ### C2 — error classification of the download assembler -/

/-- **C2 (counterexample).** `assemble([], "french-only")` does *not*
fail with `EmptyResult` (the 422 error): it fails with the 400
invalid-argument error `"Segments are required to build the download."`
before any assembly. -/
theorem download_empty_list_not_emptyResult :
    download_lesson_audio { variant := some "french-only", segments := some [] }
        = .error .segmentsRequired
      ∧ (Except.error .segmentsRequired
          ≠ (Except.error .emptyResult : Except DLErr DLResult)) := by
  constructor
  · decide
  · decide

/-- **C2 (amended).** Unsupported variant strings fail with
`InvalidArgument` (400, `"Unsupported download option."`) for every
segments value, i.e. before any segment is processed; a missing,
non-list, or **empty** segment list fails with the 400 invalid-argument
error `"Segments are required..."` (not `EmptyResult`); and for a
non-empty segment list whose final concatenation is zero-length the call
fails with `EmptyResult` (422). -/
theorem download_error_classification :
    (∀ data : DLPayload,
      pyLower (pyStrip (truthyOr data.variant "")) ∉ DOWNLOAD_VARIANTS →
      download_lesson_audio data = .error .unsupportedVariant)
    ∧ (∀ data : DLPayload,
      pyLower (pyStrip (truthyOr data.variant "")) ∈ DOWNLOAD_VARIANTS →
      data.segments = none ∨ data.segments = some [] →
      download_lesson_audio data = .error .segmentsRequired)
    ∧ (∀ (data : DLPayload) (segs : List SegItem),
      pyLower (pyStrip (truthyOr data.variant "")) ∈ DOWNLOAD_VARIANTS →
      data.segments = some segs → segs ≠ [] →
      assembleAudio (pyLower (pyStrip (truthyOr data.variant ""))) segs = [] →
      download_lesson_audio data = .error .emptyResult) := by
  refine ⟨?_, ?_, ?_⟩
  · intro data hv
    unfold download_lesson_audio
    simp [hv]
  · intro data hv hseg
    unfold download_lesson_audio
    rcases hseg with hseg | hseg <;> simp [hv, hseg]
  · intro data segs hv hseg hne hasm
    unfold download_lesson_audio
    simp [hv, hseg, hne, hasm]

/-- Witness for C2: a supported variant with a non-empty segment list
carrying no audio yields `EmptyResult`. -/
theorem download_error_classification_witness :
    download_lesson_audio { variant := some "french-only", segments := some [SegItem.other] }
      = .error .emptyResult :=
  download_error_classification.2.2
    { variant := some "french-only", segments := some [SegItem.other] }
    [SegItem.other] (by decide) rfl (by decide) (by decide)

/-! ### C9 — variant normalisation -/

/-- **C9.** The variant string is stripped and lowercased before
validation: whenever the normalised form of the supplied variant is
supported, the call behaves exactly as with the canonical lowercase
variant. -/
theorem download_variant_normalized (data : DLPayload) (v : String)
    (hv : data.variant = some v)
    (h : pyLower (pyStrip v) ∈ DOWNLOAD_VARIANTS) :
    download_lesson_audio data
      = download_lesson_audio { data with variant := some (pyLower (pyStrip v)) } := by
  have hvne : v ≠ "" := by
    intro he
    rw [he] at h
    exact absurd h (by decide)
  have h3 : pyLower (pyStrip (pyLower (pyStrip v))) = pyLower (pyStrip v) := by
    simp only [DOWNLOAD_VARIANTS, List.mem_cons, List.mem_singleton,
      List.not_mem_nil, or_false] at h
    rcases h with h | h | h <;> rw [h] <;> decide
  unfold download_lesson_audio
  simp only [truthyOr, hv, if_neg hvne]
  have hnvne : pyLower (pyStrip v) ≠ "" := by
    intro he
    rw [he] at h
    exact absurd h (by decide)
  simp only [if_neg hnvne, h3]

/-! ### Base64 roundtrip -/

theorem b64charVal_b64char : ∀ n, n < 64 → b64charVal (b64char n) = some n := by decide

theorem b64char_ne_pad : ∀ n, n < 64 → b64char n ≠ '=' := by decide

theorem keep_b64char (n : Nat) (h : n < 64) :
    ((b64charVal (b64char n)).isSome || (b64char n == '=')) = true := by
  rw [b64charVal_b64char n h]; rfl

theorem filter_encode : ∀ bs : Bytes, (∀ b ∈ bs, b < 256) →
    (encodeTriples bs).filter (fun c => (b64charVal c).isSome || c == '=') = encodeTriples bs
  | [] => by intro _; rfl
  | [x] => by
    intro h
    have hx : x < 256 := h x (by simp)
    have k1 := keep_b64char (x / 4) (by omega)
    have k2 := keep_b64char (x % 4 * 16) (by omega)
    simp [encodeTriples, List.filter_cons, k1, k2]
  | [x, y] => by
    intro h
    have hx : x < 256 := h x (by simp)
    have hy : y < 256 := h y (by simp)
    have k1 := keep_b64char (x / 4) (by omega)
    have k2 := keep_b64char (x % 4 * 16 + y / 16) (by omega)
    have k3 := keep_b64char (y % 16 * 4) (by omega)
    simp [encodeTriples, List.filter_cons, k1, k2, k3]
  | x :: y :: z :: r :: rest => by
    intro h
    have hx : x < 256 := h x (by simp)
    have hy : y < 256 := h y (by simp)
    have hz : z < 256 := h z (by simp)
    have ih := filter_encode (r :: rest) (fun b hb => h b (by simp [hb]))
    have k1 := keep_b64char (x / 4) (by omega)
    have k2 := keep_b64char (x % 4 * 16 + y / 16) (by omega)
    have k3 := keep_b64char (y % 16 * 4 + z / 64) (by omega)
    have k4 := keep_b64char (z % 64) (by omega)
    simp [encodeTriples, List.filter_cons, k1, k2, k3, k4, ih]
  | [x, y, z] => by
    intro h
    have hx : x < 256 := h x (by simp)
    have hy : y < 256 := h y (by simp)
    have hz : z < 256 := h z (by simp)
    have k1 := keep_b64char (x / 4) (by omega)
    have k2 := keep_b64char (x % 4 * 16 + y / 16) (by omega)
    have k3 := keep_b64char (y % 16 * 4 + z / 64) (by omega)
    have k4 := keep_b64char (z % 64) (by omega)
    simp [encodeTriples, List.filter_cons, k1, k2, k3, k4]

theorem decode_encodeTriples : ∀ bs : Bytes, (∀ b ∈ bs, b < 256) →
    decodeQuads (encodeTriples bs) = some bs
  | [] => by intro _; rfl
  | [x] => by
    intro h
    have hx : x < 256 := h x (by simp)
    have h1 := b64charVal_b64char (x / 4) (by omega)
    have h2 := b64charVal_b64char (x % 4 * 16) (by omega)
    simp only [encodeTriples, decodeQuads, h1, h2]
    simp
    all_goals omega
  | [x, y] => by
    intro h
    have hx : x < 256 := h x (by simp)
    have hy : y < 256 := h y (by simp)
    have h1 := b64charVal_b64char (x / 4) (by omega)
    have h2 := b64charVal_b64char (x % 4 * 16 + y / 16) (by omega)
    have h3 := b64charVal_b64char (y % 16 * 4) (by omega)
    have h3ne := b64char_ne_pad (y % 16 * 4) (by omega)
    simp only [encodeTriples, decodeQuads, h1, h2, h3, if_neg h3ne]
    simp
    all_goals omega
  | x :: y :: z :: r :: rest => by
    intro h
    have hx : x < 256 := h x (by simp)
    have hy : y < 256 := h y (by simp)
    have hz : z < 256 := h z (by simp)
    have ih := decode_encodeTriples (r :: rest) (fun b hb => h b (by simp [hb]))
    have h1 := b64charVal_b64char (x / 4) (by omega)
    have h2 := b64charVal_b64char (x % 4 * 16 + y / 16) (by omega)
    have h3 := b64charVal_b64char (y % 16 * 4 + z / 64) (by omega)
    have h4 := b64charVal_b64char (z % 64) (by omega)
    have h3ne := b64char_ne_pad (y % 16 * 4 + z / 64) (by omega)
    have h4ne := b64char_ne_pad (z % 64) (by omega)
    simp only [encodeTriples, decodeQuads, h1, h2, h3, h4, if_neg h3ne, if_neg h4ne, ih]
    simp
    all_goals omega
  | [x, y, z] => by
    intro h
    have hx : x < 256 := h x (by simp)
    have hy : y < 256 := h y (by simp)
    have hz : z < 256 := h z (by simp)
    have h1 := b64charVal_b64char (x / 4) (by omega)
    have h2 := b64charVal_b64char (x % 4 * 16 + y / 16) (by omega)
    have h3 := b64charVal_b64char (y % 16 * 4 + z / 64) (by omega)
    have h4 := b64charVal_b64char (z % 64) (by omega)
    have h3ne := b64char_ne_pad (y % 16 * 4 + z / 64) (by omega)
    have h4ne := b64char_ne_pad (z % 64) (by omega)
    simp only [encodeTriples, decodeQuads, h1, h2, h3, h4, if_neg h3ne, if_neg h4ne]
    simp
    all_goals omega

/-- Base64 transport is lossless on byte sequences. -/
theorem b64decode_b64encode (bs : Bytes) (h : ∀ b ∈ bs, b < 256) :
    b64decode (b64encode bs) = some bs := by
  unfold b64decode b64encode
  show decodeQuads ((encodeTriples bs).filter _) = some bs
  rw [filter_encode bs h]
  exact decode_encodeTriples bs h

theorem b64charVal_lt (c : Char) (v : Nat) (h : b64charVal c = some v) : v < 64 := by
  unfold b64charVal at h
  split_ifs at h <;> injection h with h' <;> omega

theorem decodeQuads_bounds : ∀ (l : List Char) (bs : Bytes),
    decodeQuads l = some bs → ∀ b ∈ bs, b < 256
  | [], bs => by
    intro h bb hbb
    simp only [decodeQuads, Option.some.injEq] at h
    subst h
    cases hbb
  | [a] , bs => by intro h _ _; exact Option.noConfusion h
  | [a, b] , bs => by intro h _ _; exact Option.noConfusion h
  | [a, b, c] , bs => by intro h _ _; exact Option.noConfusion h
  | a :: b :: c :: d :: rest, bs => by
    intro h bb hbb
    unfold decodeQuads at h
    split at h
    case h_2 => exact Option.noConfusion h
    case h_1 va vb hva hvb =>
      have hva' := b64charVal_lt _ _ hva
      have hvb' := b64charVal_lt _ _ hvb
      by_cases hc : c = '='
      · rw [if_pos hc] at h
        by_cases hd : d = '=' ∧ rest = []
        · rw [if_pos hd] at h
          simp only [Option.some.injEq] at h
          subst h
          simp only [List.mem_singleton] at hbb
          omega
        · rw [if_neg hd] at h
          exact Option.noConfusion h
      · rw [if_neg hc] at h
        cases hvc : b64charVal c with
        | none => rw [hvc] at h; exact Option.noConfusion h
        | some vc =>
          simp only [hvc] at h
          have hvc' := b64charVal_lt _ _ hvc
          by_cases hd : d = '='
          · rw [if_pos hd] at h
            by_cases hrest : rest = []
            · rw [if_pos hrest] at h
              simp only [Option.some.injEq] at h
              subst h
              simp only [List.mem_cons, List.not_mem_nil, or_false] at hbb
              rcases hbb with hbb | hbb <;> omega
            · rw [if_neg hrest] at h
              exact Option.noConfusion h
          · rw [if_neg hd] at h
            cases hvd : b64charVal d with
            | none => rw [hvd] at h; exact Option.noConfusion h
            | some vd =>
              simp only [hvd] at h
              have hvd' := b64charVal_lt _ _ hvd
              cases hrec : decodeQuads rest with
              | none => rw [hrec] at h; exact Option.noConfusion h
              | some bs' =>
                simp only [hrec, Option.some.injEq] at h
                subst h
                simp only [List.mem_cons] at hbb
                rcases hbb with hbb | hbb | hbb | hbb
                · omega
                · omega
                · omega
                · exact decodeQuads_bounds rest bs' hrec bb hbb

/-! ### C4 — pre-filter vocab id numbering -/

theorem buildKeyVocab_ids (synth : String → String → String) (i : Nat) (vs : List RawVocab) :
    (buildKeyVocab synth i vs).map (·.id)
      = (survivingVocabIndices vs).map (fun j => toString i ++ "-" ++ toString j) := by
  unfold buildKeyVocab survivingVocabIndices
  generalize vs.enum = l
  induction l with
  | nil => rfl
  | cons jv t ih =>
    simp only [List.filterMap_cons, List.filter_cons]
    by_cases hc : pyStrip (truthyOr jv.2.french "") = "" ∨ pyStrip (truthyOr jv.2.english "") = ""
    · rw [if_pos hc]
      simp only [hc]
      simpa using ih
    · rw [if_neg hc]
      simp only [hc]
      simp [ih]

/-- **C4.** The pipeline build assigns every surviving vocabulary entry
the id `"{segmentIndex}-{vocabIndex}"` where `vocabIndex` is the entry's
pre-filter index within the segment's raw vocabulary list, so ids may
skip numbers when earlier entries were dropped for empty French or
English. -/
theorem build_segments_vocab_ids :
    (∀ (synth : String → String → String) (i : Nat) (vs : List RawVocab),
      (buildKeyVocab synth i vs).map (·.id)
        = (survivingVocabIndices vs).map (fun j => toString i ++ "-" ++ toString j))
    ∧ (∀ (synth : String → String → String) (pairs : List RawPair) (seg : BuiltSegment),
      seg ∈ build_segments synth pairs →
      ∃ p : RawPair, pairs[seg.id]? = some p ∧
        seg.key_vocab.map (·.id)
          = (survivingVocabIndices (p.key_vocab.getD [])).map
              (fun j => toString seg.id ++ "-" ++ toString j)) := by
  refine ⟨buildKeyVocab_ids, ?_⟩
  intro synth pairs seg hmem
  unfold build_segments at hmem
  rw [List.mem_filterMap] at hmem
  obtain ⟨ip, hip, heq⟩ := hmem
  obtain ⟨i, p⟩ := ip
  by_cases hc : pyStrip (truthyOr p.french "") = "" ∨ pyStrip (truthyOr p.english "") = ""
  · rw [if_pos hc] at heq
    exact absurd heq (by simp)
  · rw [if_neg hc] at heq
    simp only [Option.some.injEq] at heq
    subst heq
    obtain ⟨hlt, hx⟩ := List.mem_enum hip
    refine ⟨p, ?_, ?_⟩
    · rw [List.getElem?_eq_getElem hlt, ← hx]
    · exact buildKeyVocab_ids synth i (p.key_vocab.getD [])

/-- Witness for C4: a raw vocab list whose entry 0 is dropped for an
empty French field yields a single vocab entry with id `"0-1"` (the
pre-filter index), skipping `"0-0"`. -/
theorem build_segments_vocab_ids_witness :
    (build_segments (fun _ _ => "a")
        [{ french := some "f", english := some "e",
           key_vocab := some [{ french := some " ", english := some "x" }, { french := some "le", english := some "the" }] }]).map
      (fun s => s.key_vocab.map (fun v => v.id)) = [["0-1"]] := by
  obtain ⟨p, hp, hids⟩ := build_segments_vocab_ids.2 (fun _ _ => "a")
    [{ french := some "f", english := some "e",
       key_vocab := some [{ french := some " ", english := some "x" }, { french := some "le", english := some "the" }] }]
    { id := 0, french := "f", english := "e", audio_fr := "a", audio_en := "a",
      key_vocab := [{ id := "0-1", french := "le", english := "the", audio_fr := "a", audio_en := "a" }] }
    (by decide)
  decide

/-! ### C10 — rename changes only the title -/

/-- **C10.** A successful `rename(id, title)` returns the trimmed title
and changes only the manifest's `title` field of that session: its
`raw_text`, its `segments` tree and its audio files are unchanged, and
every other session is untouched. -/
theorem update_session_frame (store : Store) (session_id : Nat) (titleArg : Option String)
    (k : Nat) (dir : SessionDir) (m : Manifest)
    (hne : pyStrip (truthyOr titleArg "") ≠ "")
    (hfind : store.find? (fun p => p.1 == session_id) = some (k, dir))
    (hman : dir.manifest = some (.readable m)) :
    (update_session store session_id titleArg).1 = .ok (pyStrip (truthyOr titleArg ""))
    ∧ ∀ q ∈ (update_session store session_id titleArg).2,
        (q.1 ≠ session_id → q ∈ store)
        ∧ (q.1 = session_id → ∃ d0 : SessionDir, (q.1, d0) ∈ store ∧ q.2.files = d0.files
            ∧ q.2.manifest = some (.readable
                { title := some (pyStrip (truthyOr titleArg "")),
                  raw_text := m.raw_text, segments := m.segments })) := by
  unfold update_session
  rw [if_neg hne]
  simp only [hfind, hman]
  refine ⟨by trivial, ?_⟩
  intro q hq
  simp only [List.mem_map] at hq
  obtain ⟨p, hp, hfq⟩ := hq
  by_cases hpid : p.1 = session_id
  · rw [if_pos hpid] at hfq
    refine ⟨fun hne' => ?_, fun _ => ?_⟩
    · rw [← hfq] at hne'
      exact absurd hpid hne'
    · refine ⟨p.2, ?_, ?_, ?_⟩
      · rw [← hfq]
        exact hp
      · rw [← hfq]
      · rw [← hfq]
  · rw [if_neg hpid] at hfq
    refine ⟨fun _ => ?_, fun heq => ?_⟩
    · rw [← hfq]
      exact hp
    · rw [← hfq] at heq
      exact absurd heq hpid

/-- Witness for C10. -/
theorem update_session_frame_witness :
    (update_session
        [(1, { manifest := some (.readable { title := some "Old", raw_text := some "r" }) })]
        1 (some "  New ")).1 = .ok "New" := by
  have h := (update_session_frame
    [(1, { manifest := some (.readable { title := some "Old", raw_text := some "r" }) })]
    1 (some "  New ") 1
    { manifest := some (.readable { title := some "Old", raw_text := some "r" }) }
    { title := some "Old", raw_text := some "r" }
    (by decide) (by decide) rfl).1
  exact h.trans (by decide)

/-! ### Characterisation of a fully successful save -/

theorem write_audio_file_alwaysOk (ctr : Nat) (files : FileMap) (name : String)
    (a : Option String) :
    write_audio_file alwaysOk ctr files name a
      = some (if (decode_audio_bytes a).isSome then ctr + 1 else ctr,
              files ++ fileEntry name a,
              if (decode_audio_bytes a).isSome then some name else none) := by
  cases a with
  | none => simp [write_audio_file, decode_audio_bytes, fileEntry]
  | some s =>
    by_cases hs : s = ""
    · simp [write_audio_file, decode_audio_bytes, fileEntry, hs]
    · cases hb : b64decode s with
      | none => simp [write_audio_file, decode_audio_bytes, fileEntry, hs, hb]
      | some bs => simp [write_audio_file, decode_audio_bytes, fileEntry, hs, hb, alwaysOk]

theorem saveVocabLoop_alwaysOk (segIdx : Nat) :
    ∀ (l : List (Nat × SaveVocab)) (c : Nat) (f : FileMap),
      saveVocabLoop alwaysOk segIdx (c, f) l
        = some (c + (l.map (fun jv => vocabWriteCount jv.2)).sum,
                f ++ l.flatMap (vocabFiles segIdx),
                l.map (mkMVocabRec segIdx)) := by
  intro l
  induction l with
  | nil => intro c f; simp [saveVocabLoop]
  | cons jv t ih =>
    intro c f
    obtain ⟨j, v⟩ := jv
    simp only [saveVocabLoop, write_audio_file_alwaysOk, ih]
    simp only [Option.some.injEq, Prod.mk.injEq]
    refine ⟨?_, ?_, ?_⟩
    · simp only [List.map_cons, List.sum_cons, vocabWriteCount, writeCount]
      split_ifs <;> omega
    · simp [vocabFiles, List.append_assoc]
    · simp [mkMVocabRec]

theorem saveSegLoop_alwaysOk :
    ∀ (l : List (Nat × SaveSegment)) (c : Nat) (f : FileMap),
      saveSegLoop alwaysOk (c, f) l
        = some (c + (l.map (fun is =>
                  writeCount is.2.audio_fr + writeCount is.2.audio_en
                    + ((rawKeyVocabOf is.2).map vocabWriteCount).sum)).sum,
                f ++ l.flatMap segFilesWritten,
                l.map mkMSegmentRec) := by
  intro l
  induction l with
  | nil => intro c f; simp [saveSegLoop]
  | cons is t ih =>
    intro c f
    obtain ⟨i, seg⟩ := is
    have hsum : ((truthyOrList seg.key_vocab (truthyOrList seg.keyVocab [])).enum.map
          (fun jv => vocabWriteCount jv.2)).sum
        = ((rawKeyVocabOf seg).map vocabWriteCount).sum := by
      rw [show (fun jv : Nat × SaveVocab => vocabWriteCount jv.2)
          = vocabWriteCount ∘ Prod.snd from rfl]
      rw [← List.map_map, List.enum_map_snd]
      rfl
    simp only [saveSegLoop, write_audio_file_alwaysOk, saveVocabLoop_alwaysOk, ih]
    simp only [Option.some.injEq, Prod.mk.injEq]
    refine ⟨?_, ?_, ?_⟩
    · simp only [List.map_cons, List.sum_cons, writeCount, hsum]
      split_ifs <;> omega
    · simp [segFilesWritten, rawKeyVocabOf, List.append_assoc]
    · simp [mkMSegmentRec, rawKeyVocabOf]

/-- A fully successful `save_session` call: allocates `max+1`, writes the
decodable audio files and a manifest recording trimmed texts and the
written filenames. -/
theorem save_session_alwaysOk_spec (store : Store) (data : SaveRequest)
    (segs : List SaveSegment)
    (hseg : data.segments = some segs)
    (hraw : pyStrip (truthyOr data.rawText (truthyOr data.raw_text "")) ≠ "")
    (hne : segs ≠ []) :
    save_session alwaysOk store data
      = (.ok (maxKey store + 1),
         (maxKey store + 1,
           { files := segs.enum.flatMap segFilesWritten,
             manifest := some (.readable
               { title := some (if pyStrip (truthyOr data.title (truthyOr data.name "")) = ""
                   then "Lesson " ++ toString (maxKey store + 1)
                   else pyStrip (truthyOr data.title (truthyOr data.name ""))),
                 raw_text := some (pyStrip (truthyOr data.rawText (truthyOr data.raw_text ""))),
                 segments := some (segs.enum.map mkMSegmentRec) }) }) :: store) := by
  unfold save_session
  simp only [hseg]
  have hcond : ¬(pyStrip (truthyOr data.rawText (truthyOr data.raw_text "")) = ""
      ∨ segs.isEmpty = true) := by
    intro hor
    rcases hor with hor | hor
    · exact hraw hor
    · exact hne (by simpa using hor)
  rw [if_neg hcond]
  rw [saveSegLoop_alwaysOk]
  simp only [alwaysOk]
  rw [if_pos trivial]
  rw [List.nil_append]
  rw [setDir_fresh]

/-! ### C1 — where empty segments are dropped -/

/-- **C1 (counterexample).** A save-session request whose single segment
has French `" "` (empty after trimming) succeeds and persists a manifest
segment record with `french = ""`: save-session does **not** drop such
segments. -/
theorem save_session_keeps_empty_french :
    (save_session alwaysOk []
        { rawText := some "x",
          segments := some [{ french := some " ", english := some "hi" }] }).1 = .ok 1
    ∧ (save_session alwaysOk []
        { rawText := some "x",
          segments := some [{ french := some " ", english := some "hi" }] }).2
      = [(1, { files := [],
               manifest := some (.readable
                 { title := some "Lesson 1", raw_text := some "x",
                   segments := some [{ id := some 0, french := some "",
                                       english := some "hi", key_vocab := some [] }] }) })] := by
  constructor
  · decide
  · decide

/-- **C1 (amended).** Segments with empty French or English (after
trimming) are dropped by the pipeline build (`_build_segments`), not by
session creation: every segment produced by the build has non-empty
French and English, while `save_session` persists exactly one manifest
record per input segment with the `french`/`english` fields stored
trimmed — including empty ones. -/
theorem empty_segments_dropped_at_build_not_save :
    (∀ (synth : String → String → String) (pairs : List RawPair) (seg : BuiltSegment),
      seg ∈ build_segments synth pairs → seg.french ≠ "" ∧ seg.english ≠ "")
    ∧ (∀ (store : Store) (data : SaveRequest) (segs : List SaveSegment),
      data.segments = some segs →
      pyStrip (truthyOr data.rawText (truthyOr data.raw_text "")) ≠ "" →
      segs ≠ [] →
      (save_session alwaysOk store data).1 = .ok (maxKey store + 1)
      ∧ ∃ dir : SessionDir,
          (save_session alwaysOk store data).2 = (maxKey store + 1, dir) :: store
          ∧ ∃ m : Manifest, dir.manifest = some (.readable m)
            ∧ m.segments = some (segs.enum.map mkMSegmentRec)
            ∧ (segs.enum.map mkMSegmentRec).map (fun r => (r.french, r.english))
                = segs.map (fun s => (some (pyStrip (truthyOr s.french "")),
                                      some (pyStrip (truthyOr s.english ""))))) := by
  constructor
  · intro synth pairs seg hmem
    unfold build_segments at hmem
    rw [List.mem_filterMap] at hmem
    obtain ⟨ip, _, heq⟩ := hmem
    by_cases hc : pyStrip (truthyOr ip.2.french "") = "" ∨ pyStrip (truthyOr ip.2.english "") = ""
    · rw [if_pos hc] at heq
      exact absurd heq (by simp)
    · rw [if_neg hc] at heq
      simp only [Option.some.injEq] at heq
      subst heq
      push_neg at hc
      exact hc
  · intro store data segs hseg hraw hne
    have hspec := save_session_alwaysOk_spec store data segs hseg hraw hne
    refine ⟨by rw [hspec], ?_⟩
    refine ⟨_, by rw [hspec], ?_⟩
    refine ⟨_, rfl, rfl, ?_⟩
    rw [List.map_map]
    rw [show ((fun r : MSegment => (r.french, r.english)) ∘ mkMSegmentRec)
        = ((fun s : SaveSegment => (some (pyStrip (truthyOr s.french "")),
            some (pyStrip (truthyOr s.english "")))) ∘ Prod.snd) from rfl]
    rw [← List.map_map, List.enum_map_snd]

/-- Witness for C1 (amended). -/
theorem empty_segments_dropped_at_build_not_save_witness :
    (save_session alwaysOk []
        { rawText := some "y", segments := some [{ french := some "a", english := some "b" }] }).1
      = .ok 1 := by
  have h := (empty_segments_dropped_at_build_not_save.2 []
    { rawText := some "y", segments := some [{ french := some "a", english := some "b" }] }
    [{ french := some "a", english := some "b" }] rfl (by decide) (by decide)).1
  exact h.trans (by decide)

/-! ### C8 — undecodable audio is skipped, not fatal -/

theorem segEnName_ne_segFrName (i : Nat) : segEnName i ≠ segFrName i := by
  intro h
  have hd := congrArg String.data h
  simp only [segEnName, segFrName, String.data_append] at hd
  have hd2 := List.append_cancel_left hd
  exact absurd hd2 (by decide)

theorem kvFrName_ne_segFrName (i j : Nat) : kvFrName i j ≠ segFrName i := by
  intro h
  have hd := congrArg String.data h
  simp only [kvFrName, segFrName, String.data_append, List.append_assoc] at hd
  have hd2 := List.append_cancel_left (List.append_cancel_left hd)
  simp at hd2

theorem kvEnName_ne_segFrName (i j : Nat) : kvEnName i j ≠ segFrName i := by
  intro h
  have hd := congrArg String.data h
  simp only [kvEnName, segFrName, String.data_append, List.append_assoc] at hd
  have hd2 := List.append_cancel_left (List.append_cancel_left hd)
  simp at hd2

/-- **C8.** During session creation, an audio field whose base64 value
cannot be decoded is silently skipped: the call still succeeds, the
segment's own writes do not include the corresponding file, and the
manifest records a null filename for it. -/
theorem undecodable_audio_skipped (store : Store) (data : SaveRequest)
    (segs : List SaveSegment) (i : Nat) (seg : SaveSegment) (s : String)
    (hseg : data.segments = some segs)
    (hraw : pyStrip (truthyOr data.rawText (truthyOr data.raw_text "")) ≠ "")
    (hne : segs ≠ [])
    (hi : segs[i]? = some seg)
    (ha : seg.audio_fr = some s) (hs : s ≠ "") (hbad : b64decode s = none) :
    (save_session alwaysOk store data).1 = .ok (maxKey store + 1)
    ∧ ∃ dir : SessionDir,
        (save_session alwaysOk store data).2 = (maxKey store + 1, dir) :: store
        ∧ dir.files = segs.enum.flatMap segFilesWritten
        ∧ (∃ m : Manifest, dir.manifest = some (.readable m)
            ∧ ∃ msegs : List MSegment, m.segments = some msegs
              ∧ msegs[i]? = some (mkMSegmentRec (i, seg))
              ∧ (mkMSegmentRec (i, seg)).audio_fr_file = none)
        ∧ segFrName i ∉ (segFilesWritten (i, seg)).map (fun e => e.1) := by
  have hspec := save_session_alwaysOk_spec store data segs hseg hraw hne
  have hdec : decode_audio_bytes seg.audio_fr = none := by
    rw [ha]
    simp [decode_audio_bytes, hs, hbad]
  have hlt : i < segs.length := by
    by_contra hge
    rw [List.getElem?_eq_none (by omega)] at hi
    exact Option.noConfusion hi
  have hval : segs[i] = seg := by
    have := List.getElem?_eq_getElem hlt
    rw [hi] at this
    exact (Option.some.injEq _ _ ▸ this.symm)
  refine ⟨by rw [hspec], _, by rw [hspec], rfl, ⟨_, rfl, _, rfl, ?_, ?_⟩, ?_⟩
  · -- msegs[i]? picks the record of segment i
    have hlen : i < segs.enum.length := by simpa [List.enum_length] using hlt
    rw [List.getElem?_map]
    rw [List.getElem?_eq_getElem hlen]
    rw [List.getElem_enum]
    simp [hval]
  · simp [mkMSegmentRec, hdec]
  · -- the segment's own writes contain no `segment_i_fr` file
    intro hmemname
    simp only [segFilesWritten, List.map_append, List.mem_append] at hmemname
    rcases hmemname with (hmem | hmem) | hmem
    · rw [show fileEntry (segFrName i) (i, seg).2.audio_fr = [] from by
        simp [fileEntry, hdec]] at hmem
      simp at hmem
    · unfold fileEntry at hmem
      cases hdec2 : decode_audio_bytes (i, seg).2.audio_en with
      | none => rw [hdec2] at hmem; simp at hmem
      | some bs =>
        rw [hdec2] at hmem
        simp only [List.map_cons, List.map_nil, List.mem_singleton] at hmem
        exact segEnName_ne_segFrName i hmem.symm
    · rw [List.mem_map] at hmem
      obtain ⟨e, he, hename⟩ := hmem
      rw [List.mem_flatMap] at he
      obtain ⟨jv, _, hjv⟩ := he
      simp only [vocabFiles, List.mem_append] at hjv
      rcases hjv with hjv | hjv
      · unfold fileEntry at hjv
        cases hd3 : decode_audio_bytes jv.2.audio_fr with
        | none => rw [hd3] at hjv; simp at hjv
        | some bs =>
          rw [hd3] at hjv
          simp only [List.mem_singleton] at hjv
          rw [hjv] at hename
          exact kvFrName_ne_segFrName i jv.1 hename
      · unfold fileEntry at hjv
        cases hd3 : decode_audio_bytes jv.2.audio_en with
        | none => rw [hd3] at hjv; simp at hjv
        | some bs =>
          rw [hd3] at hjv
          simp only [List.mem_singleton] at hjv
          rw [hjv] at hename
          exact kvEnName_ne_segFrName i jv.1 hename

/-- Witness for C8: the bad-padding value `"QQ="` is skipped, the call
succeeds, and no French audio file is among that segment's writes. -/
theorem undecodable_audio_skipped_witness :
    (save_session alwaysOk []
        { rawText := some "x",
          segments := some [{ english := some "hi", audio_fr := some "QQ=" }] }).1 = .ok 1
    ∧ segFrName 0 ∉ (segFilesWritten
        (0, { english := some "hi", audio_fr := some "QQ=" })).map (fun e => e.1) := by
  obtain ⟨h1, dir, hdir, hfiles, hman, hnotin⟩ := undecodable_audio_skipped []
    { rawText := some "x", segments := some [{ english := some "hi", audio_fr := some "QQ=" }] }
    [{ english := some "hi", audio_fr := some "QQ=" }] 0
    { english := some "hi", audio_fr := some "QQ=" } "QQ="
    rfl (by decide) (by decide) (by decide) rfl (by decide) (by decide)
  exact ⟨h1.trans (by decide), hnotin⟩

/-! ### C7 — snake_case / camelCase duality -/

theorem decode_get_swap (a : Option String) :
    decode_audio_bytes (get_audio_value none a) = decode_audio_bytes (get_audio_value a none) := by
  cases a with
  | none => rfl
  | some s =>
    by_cases hs : s = ""
    · subst hs
      simp [get_audio_value, decode_audio_bytes]
    · simp [get_audio_value, hs]

theorem vocabStep_camelize (v : VocabItem) (hv : vocabItemSnakeOnly v = true) (acc : Bytes) :
    vocabStep acc (camelizeVocabItem v) = vocabStep acc v := by
  cases v with
  | other => rfl
  | dict d =>
    simp only [vocabItemSnakeOnly, Bool.and_eq_true, beq_iff_eq] at hv
    obtain ⟨hfr, hen⟩ := hv
    simp only [camelizeVocabItem, camelizeVocabDict, vocabStep]
    rw [decode_get_swap, decode_get_swap, hfr, hen]

theorem foldl_vocabStep_camelize (l : List VocabItem)
    (hl : ∀ v ∈ l, vocabItemSnakeOnly v = true) (acc : Bytes) :
    (l.map camelizeVocabItem).foldl vocabStep acc = l.foldl vocabStep acc := by
  induction l generalizing acc with
  | nil => rfl
  | cons v t ih =>
    simp only [List.map_cons, List.foldl_cons]
    rw [vocabStep_camelize v (hl v (List.mem_cons_self v t))]
    exact ih (fun u hu => hl u (List.mem_cons_of_mem v hu)) _

theorem collect_key_vocab_simple (d : SegDict) (hkv : d.keyVocab = none) :
    collect_key_vocab d = d.key_vocab.getD [] := by
  unfold collect_key_vocab
  rw [hkv]
  cases d.key_vocab <;> rfl

theorem collect_camelize (d : SegDict) :
    collect_key_vocab (camelizeSegDict d)
      = (d.key_vocab.getD []).map camelizeVocabItem := by
  unfold collect_key_vocab camelizeSegDict
  cases d.key_vocab <;> rfl

theorem assembleStep_camelize (variant : String) (acc : Bytes) (s : SegItem)
    (hs : segItemSnakeOnly s = true) :
    assembleStep variant acc (camelizeSegItem s) = assembleStep variant acc s := by
  cases s with
  | other => rfl
  | dict d =>
    simp only [segItemSnakeOnly, Bool.and_eq_true, beq_iff_eq, List.all_eq_true] at hs
    obtain ⟨⟨⟨hfr, hen⟩, hkv⟩, hall⟩ := hs
    have e1 : (camelizeSegDict d).audio_fr = none := rfl
    have e2 : (camelizeSegDict d).audioFr = d.audio_fr := rfl
    have e3 : (camelizeSegDict d).audio_en = none := rfl
    have e4 : (camelizeSegDict d).audioEn = d.audio_en := rfl
    simp only [camelizeSegItem, assembleStep, e1, e2, e3, e4]
    rw [decode_get_swap, decode_get_swap, hfr, hen]
    split_ifs <;> try rfl
    rw [collect_camelize d]
    rw [collect_key_vocab_simple d hkv]
    rw [foldl_vocabStep_camelize _ hall]

theorem assembleAudio_camelize (variant : String) (segs : List SegItem)
    (hall : ∀ s ∈ segs, segItemSnakeOnly s = true) :
    assembleAudio variant (segs.map camelizeSegItem) = assembleAudio variant segs := by
  unfold assembleAudio
  generalize [] = acc
  induction segs generalizing acc with
  | nil => rfl
  | cons s t ih =>
    simp only [List.map_cons, List.foldl_cons]
    rw [assembleStep_camelize variant acc s (hall s (List.mem_cons_self s t))]
    exact ih (fun u hu => hall u (List.mem_cons_of_mem s hu)) _

theorem rawKeyVocab_alt (seg : SaveSegment) (hkv : seg.keyVocab = none) :
    truthyOrList (altSpellingSaveSegment seg).key_vocab
        (truthyOrList (altSpellingSaveSegment seg).keyVocab [])
      = truthyOrList seg.key_vocab (truthyOrList seg.keyVocab []) := by
  rw [hkv]
  rfl

theorem segFilesWritten_alt (i : Nat) (seg : SaveSegment) (hkv : seg.keyVocab = none) :
    segFilesWritten (i, altSpellingSaveSegment seg) = segFilesWritten (i, seg) := by
  unfold segFilesWritten rawKeyVocabOf
  rw [rawKeyVocab_alt seg hkv]
  rfl

theorem mkMSegmentRec_alt (i : Nat) (seg : SaveSegment) (hkv : seg.keyVocab = none) :
    mkMSegmentRec (i, altSpellingSaveSegment seg) = mkMSegmentRec (i, seg) := by
  unfold mkMSegmentRec rawKeyVocabOf
  rw [rawKeyVocab_alt seg hkv]
  rfl

theorem flatMap_files_alt (l : List (Nat × SaveSegment))
    (h : ∀ p ∈ l, p.2.keyVocab = none) :
    (l.map (Prod.map id altSpellingSaveSegment)).flatMap segFilesWritten
      = l.flatMap segFilesWritten := by
  induction l with
  | nil => rfl
  | cons p t ih =>
    obtain ⟨i, seg⟩ := p
    simp only [List.map_cons, List.flatMap_cons]
    rw [show Prod.map id altSpellingSaveSegment (i, seg) = (i, altSpellingSaveSegment seg)
      from rfl]
    rw [segFilesWritten_alt i seg (h (i, seg) (List.mem_cons_self _ t))]
    rw [ih (fun q hq => h q (List.mem_cons_of_mem _ hq))]

theorem map_recs_alt (l : List (Nat × SaveSegment))
    (h : ∀ p ∈ l, p.2.keyVocab = none) :
    (l.map (Prod.map id altSpellingSaveSegment)).map mkMSegmentRec
      = l.map mkMSegmentRec := by
  induction l with
  | nil => rfl
  | cons p t ih =>
    obtain ⟨i, seg⟩ := p
    simp only [List.map_cons]
    rw [show Prod.map id altSpellingSaveSegment (i, seg) = (i, altSpellingSaveSegment seg)
      from rfl]
    rw [mkMSegmentRec_alt i seg (h (i, seg) (List.mem_cons_self _ t))]
    rw [ih (fun q hq => h q (List.mem_cons_of_mem _ hq))]

theorem find?_map_keyed (g : SessionDir → SessionDir) (store : Store) (n : Nat) :
    (store.map (fun p => (p.1, g p.2))).find? (fun p => p.1 == n)
      = (store.find? (fun p => p.1 == n)).map (fun p => (p.1, g p.2)) := by
  induction store with
  | nil => rfl
  | cons q t ih =>
    cases hq : (q.1 == n) <;> simp [List.find?_cons, hq, ih]

theorem loadVocab_erase (files : FileMap) (v : MVocab) :
    loadVocab files (eraseCamelMVocab v) = loadVocab files v := rfl

theorem loadSegment_erase (files : FileMap) (i : Nat) (s : MSegment) :
    loadSegment files i (eraseCamelMSegment s) = loadSegment files i s := by
  unfold loadSegment eraseCamelMSegment
  cases s.key_vocab <;> simp [loadVocab_erase, List.map_map]

theorem load_session_ignores_camel (store : Store) (session_id : Nat) :
    load_session (store.map (fun p => (p.1, eraseCamelDir p.2))) session_id
      = load_session store session_id := by
  unfold load_session
  rw [find?_map_keyed]
  cases hf : store.find? (fun p => p.1 == session_id) with
  | none => rfl
  | some q =>
    simp only [Option.map_some']
    cases hm : q.2.manifest with
    | none => simp [eraseCamelDir, hm]
    | some mf =>
      cases mf with
      | unreadable => simp [eraseCamelDir, eraseCamelManifestFile, hm]
      | readable m =>
        simp only [eraseCamelDir, hm, Option.map_some', eraseCamelManifestFile]
        unfold eraseCamelManifest
        cases m.segments with
        | none => rfl
        | some l =>
          simp only [Option.map_some', Option.getD_some, List.enum_map]
          simp [List.map_map, loadSegment_erase]

/-- **C7 (counterexample).** `load(id)` does *not* accept camelCase
manifest fields: the same manifest spelled with `key_vocab` rehydrates
one vocab entry, spelled with `keyVocab` it rehydrates none. -/
theorem load_session_snake_camel_differ :
    (load_session
        [(1, { manifest := some (.readable
               { raw_text := some "r",
                 segments := some [{ key_vocab := some [{ french := some "bonjour", english := some "hello" }] }] }) })]
        1).map (fun l => l.segments.map (fun sg => sg.key_vocab.length)) = .ok [1]
    ∧ (load_session
        [(1, { manifest := some (.readable
               { raw_text := some "r",
                 segments := some [{ keyVocab := some [{ french := some "bonjour", english := some "hello" }] }] }) })]
        1).map (fun l => l.segments.map (fun sg => sg.key_vocab.length)) = .ok [0] := by
  constructor
  · decide
  · decide

/-- **C7 (amended).** Dual snake_case/camelCase spelling is accepted
where the code implements it — the download payload's audio fields and
key-vocab list, and the save request's `rawText`/`title`/`key_vocab`
fields — and a payload spelled entirely camelCase behaves identically to
its snake_case form there; `load_session`, however, reads manifest
fields in snake_case only, so the camelCase manifest fields are ignored
entirely. -/
theorem dual_spelling_where_implemented :
    (∀ (data : DLPayload) (segs : List SegItem),
      data.segments = some segs →
      (∀ s ∈ segs, segItemSnakeOnly s = true) →
      download_lesson_audio { data with segments := some (segs.map camelizeSegItem) }
        = download_lesson_audio data)
    ∧ (∀ (store : Store) (data : SaveRequest) (segs : List SaveSegment),
      data.segments = some segs →
      data.raw_text = none → data.name = none →
      (∀ sg ∈ segs, sg.keyVocab = none) →
      pyStrip (truthyOr data.rawText (truthyOr data.raw_text "")) ≠ "" →
      segs ≠ [] →
      save_session alwaysOk store (altSpellingSaveRequest data)
        = save_session alwaysOk store data)
    ∧ (∀ (store : Store) (session_id : Nat),
      load_session (store.map (fun p => (p.1, eraseCamelDir p.2))) session_id
        = load_session store session_id) := by
  refine ⟨?_, ?_, load_session_ignores_camel⟩
  · intro data segs hseg hall
    unfold download_lesson_audio
    simp only [hseg]
    by_cases hv : pyLower (pyStrip (truthyOr data.variant "")) ∈ DOWNLOAD_VARIANTS
    · rw [if_pos hv, if_pos hv]
      cases segs with
      | nil => rfl
      | cons s t =>
        simp only [List.map_cons, List.isEmpty_cons, Bool.false_eq_true, if_false]
        rw [show (camelizeSegItem s :: t.map camelizeSegItem)
            = (s :: t).map camelizeSegItem from rfl]
        rw [assembleAudio_camelize _ _ hall]
    · rw [if_neg hv, if_neg hv]
  · intro store data segs hseg hrt hnm hkv hraw hne
    have hsegalt : (altSpellingSaveRequest data).segments
        = some (segs.map altSpellingSaveSegment) := by
      simp [altSpellingSaveRequest, hseg]
    have hrw : truthyOr (altSpellingSaveRequest data).rawText
        (truthyOr (altSpellingSaveRequest data).raw_text "")
        = truthyOr data.rawText (truthyOr data.raw_text "") := by
      rw [hrt]
      rfl
    have htl : truthyOr (altSpellingSaveRequest data).title
        (truthyOr (altSpellingSaveRequest data).name "")
        = truthyOr data.title (truthyOr data.name "") := by
      rw [hnm]
      rfl
    have hraw' : pyStrip (truthyOr (altSpellingSaveRequest data).rawText
        (truthyOr (altSpellingSaveRequest data).raw_text "")) ≠ "" := by
      rw [hrw]; exact hraw
    have hne' : segs.map altSpellingSaveSegment ≠ [] := by
      intro h
      exact hne (List.map_eq_nil_iff.mp h)
    have henum : ∀ p ∈ segs.enum, (p.2).keyVocab = none := by
      intro p hp
      obtain ⟨_, hx⟩ := List.mem_enum hp
      exact hx ▸ hkv _ (List.getElem_mem _)
    rw [save_session_alwaysOk_spec store data segs hseg hraw hne,
        save_session_alwaysOk_spec store (altSpellingSaveRequest data)
          (segs.map altSpellingSaveSegment) hsegalt hraw' hne']
    rw [hrw, htl]
    rw [List.enum_map]
    rw [flatMap_files_alt _ henum, map_recs_alt _ henum]

/-- Witness for C7: a one-segment download payload spelled camelCase
behaves as its snake_case form. -/
theorem dual_spelling_where_implemented_witness :
    download_lesson_audio
        { variant := some "french-only",
          segments := some ([SegItem.dict { audio_fr := some "QQ==" }].map camelizeSegItem) }
      = download_lesson_audio
        { variant := some "french-only",
          segments := some [SegItem.dict { audio_fr := some "QQ==" }] } :=
  dual_spelling_where_implemented.1
    { variant := some "french-only",
      segments := some [SegItem.dict { audio_fr := some "QQ==" }] }
    [SegItem.dict { audio_fr := some "QQ==" }] rfl (by decide)

/-! ### C3 — the `french-english` concatenation recipe -/

theorem assembleStep_fe (acc : Bytes) (s : SegItem) :
    assembleStep "french-english" acc s = acc ++ frenchEnglishRecipe s := by
  cases s with
  | other => simp [assembleStep, frenchEnglishRecipe]
  | dict d =>
    simp only [assembleStep, frenchEnglishRecipe, extendIf_eq]
    simp [List.append_assoc]

theorem assemble_fe_foldl :
    ∀ (segs : List SegItem) (acc : Bytes),
      segs.foldl (assembleStep "french-english") acc
        = acc ++ (segs.map frenchEnglishRecipe).flatten := by
  intro segs
  induction segs with
  | nil => intro acc; simp
  | cons s rest ih =>
    intro acc
    simp only [List.foldl_cons, List.map_cons, List.flatten_cons, assembleStep_fe, ih,
      List.append_assoc]

/-- **C3.** For every segment list, the `french-english` variant
concatenates, per segment in list order, `audioFr`, then `audioEn`, then
`audioFr` again; in particular, for a single segment whose French audio
decodes to bytes `A` and whose English audio decodes to bytes `B`, the
call succeeds and the delivered blob is the base64 transport of exactly
`A ++ B ++ A` (and base64 decoding it gives back exactly `A ++ B ++ A`). -/
theorem download_french_english_recipe :
    (∀ segs : List SegItem,
      assembleAudio "french-english" segs = (segs.map frenchEnglishRecipe).flatten)
    ∧ (∀ (frS enS : String) (A B : Bytes),
      decode_audio_bytes (some frS) = some A → A ≠ [] →
      decode_audio_bytes (some enS) = some B → B ≠ [] →
      download_lesson_audio
          { variant := some "french-english",
            segments := some [.dict { audio_fr := some frS, audio_en := some enS }] }
        = .ok ⟨b64encode (A ++ B ++ A), "french-english"⟩
      ∧ b64decode (b64encode (A ++ B ++ A)) = some (A ++ B ++ A)) := by
  constructor
  · intro segs
    unfold assembleAudio
    rw [assemble_fe_foldl]
    simp
  · intro frS enS A B hfr hA hen hB
    have hfrne : frS ≠ "" := by
      intro he
      rw [he] at hfr
      simp [decode_audio_bytes] at hfr
    have henne : enS ≠ "" := by
      intro he
      rw [he] at hen
      simp [decode_audio_bytes] at hen
    constructor
    · unfold download_lesson_audio
      have hv : pyLower (pyStrip (truthyOr (some "french-english") "")) = "french-english" := by
        decide
      rw [hv]
      rw [if_pos (by decide)]
      simp only [List.isEmpty_cons, Bool.false_eq_true, if_false]
      have hasm : assembleAudio "french-english"
          [.dict { audio_fr := some frS, audio_en := some enS }] = A ++ B ++ A := by
        unfold assembleAudio
        rw [assemble_fe_foldl]
        simp only [List.map_cons, List.map_nil, List.flatten_cons, List.flatten_nil,
          frenchEnglishRecipe, get_audio_value]
        rw [if_neg hfrne, if_neg henne]
        rw [hfr, hen]
        simp
      rw [hasm]
      have hne : (A ++ B ++ A).isEmpty = false := by
        cases A with
        | nil => exact absurd rfl hA
        | cons a t => rfl
      rw [hne]
      simp
    · have hAb : ∀ b ∈ A, b < 256 := by
        have : b64decode frS = some A := by
          simpa [decode_audio_bytes, hfrne] using hfr
        exact fun b hb => decodeQuads_bounds _ A this b hb
      have hBb : ∀ b ∈ B, b < 256 := by
        have : b64decode enS = some B := by
          simpa [decode_audio_bytes, henne] using hen
        exact fun b hb => decodeQuads_bounds _ B this b hb
      refine b64decode_b64encode _ (fun b hb => ?_)
      simp only [List.mem_append] at hb
      rcases hb with (hb | hb) | hb
      · exact hAb b hb
      · exact hBb b hb
      · exact hAb b hb

/-- Witness for C3: one segment with French audio `[65]` and English
audio `[66]` yields exactly `A|B|A = [65, 66, 65]`. -/
theorem download_french_english_recipe_witness :
    download_lesson_audio
        { variant := some "french-english",
          segments := some [.dict { audio_fr := some "QQ==", audio_en := some "Qg==" }] }
      = .ok ⟨b64encode ([65] ++ [66] ++ [65]), "french-english"⟩ :=
  (download_french_english_recipe.2 "QQ==" "Qg==" [65] [66]
    (by decide) (by decide) (by decide) (by decide)).1

/-! ### Whitespace lemmas for the preview computation -/

theorem isWs_nlToSp (c : Char) : isWs (nlToSp c) = isWs c := by
  unfold nlToSp
  by_cases h : c = '\n'
  · subst h
    decide
  · simp [h]

theorem dropWhile_ws_map_nl (l : List Char) :
    (l.map nlToSp).dropWhile isWs = (l.dropWhile isWs).map nlToSp := by
  induction l with
  | nil => rfl
  | cons a t ih =>
    simp only [List.map_cons, List.dropWhile_cons]
    rw [isWs_nlToSp]
    cases h : isWs a with
    | true => simpa [h] using ih
    | false => simp [h]

theorem nlToSp_of_not_ws (a : Char) (h : isWs a = false) : nlToSp a = a := by
  unfold nlToSp
  have hne : (a == '\n') = false := by
    cases hb : a == '\n'
    · rfl
    · have : a = '\n' := by simpa using hb
      rw [this] at h
      exact absurd h (by decide)
  rw [hne]
  rfl

theorem collapse_map_nl : ∀ (n : Nat) (l : List Char), l.length ≤ n →
    collapseWs (l.map nlToSp) = collapseWs l := by
  intro n
  induction n with
  | zero =>
    intro l hl
    have hnil : l = [] := List.length_eq_zero.mp (Nat.le_zero.mp hl)
    subst hnil
    rfl
  | succ n ih =>
    intro l hl
    cases l with
    | nil => rfl
    | cons a t =>
      simp only [List.map_cons, collapseWs]
      rw [isWs_nlToSp]
      cases h : isWs a with
      | true =>
        simp only [if_true]
        rw [dropWhile_ws_map_nl]
        congr 1
        refine ih _ ?_
        have h1 : (t.dropWhile isWs).length ≤ t.length := (List.dropWhile_sublist _).length_le
        have h2 : t.length + 1 ≤ n + 1 := by simpa using hl
        omega
      | false =>
        simp only [Bool.false_eq_true, if_false]
        rw [nlToSp_of_not_ws a h]
        congr 1
        refine ih t ?_
        simp only [List.length_cons] at hl
        omega

theorem dropWhile_id_of_head (l : List Char) (p : Char → Bool)
    (h : ∀ c, l.head? = some c → p c = false) : l.dropWhile p = l := by
  cases l with
  | nil => rfl
  | cons a t =>
    have ha := h a rfl
    simp [List.dropWhile_cons, ha]

theorem head?_dropWhile (l : List Char) (p : Char → Bool) (c : Char)
    (h : (l.dropWhile p).head? = some c) : p c = false := by
  induction l with
  | nil => exact Option.noConfusion h
  | cons a t ih =>
    rw [List.dropWhile_cons] at h
    by_cases hp : p a = true
    · rw [if_pos hp] at h
      exact ih h
    · rw [if_neg hp] at h
      simp only [List.head?_cons, Option.some.injEq] at h
      subst h
      simpa using hp

theorem mem_of_getLast?_eq (l : List Char) (x : Char) (h : l.getLast? = some x) : x ∈ l := by
  rw [← List.head?_reverse] at h
  rw [← List.mem_reverse]
  cases hr : l.reverse with
  | nil =>
    rw [hr] at h
    exact Option.noConfusion h
  | cons y ys =>
    rw [hr] at h
    simp only [List.head?_cons, Option.some.injEq] at h
    subst h
    exact List.mem_cons_self _ _

theorem getLast?_some_of_ne_nil (t : List Char) (h : t ≠ []) : ∃ x, t.getLast? = some x := by
  rw [← List.head?_reverse]
  cases hr : t.reverse with
  | nil => exact absurd (by simpa using congrArg List.reverse hr) h
  | cons y ys => exact ⟨y, rfl⟩

theorem getLast?_cons_ne_nil (a : Char) (t : List Char) (h : t ≠ []) :
    (a :: t).getLast? = t.getLast? := by
  obtain ⟨x, hx⟩ := getLast?_some_of_ne_nil t h
  show ([a] ++ t).getLast? = t.getLast?
  rw [List.getLast?_append, hx]
  rfl

theorem getLast?_dropWhile_ne_nil (l : List Char) (p : Char → Bool)
    (h : l.dropWhile p ≠ []) :
    (l.dropWhile p).getLast? = l.getLast? := by
  conv_rhs => rw [← List.takeWhile_append_dropWhile (p := p) (l := l)]
  rw [List.getLast?_append]
  obtain ⟨x, hx⟩ := getLast?_some_of_ne_nil _ h
  rw [hx]
  rfl

theorem collapseWs_ne_nil (l : List Char) (h : l ≠ []) : collapseWs l ≠ [] := by
  cases l with
  | nil => exact absurd rfl h
  | cons a t =>
    simp only [collapseWs]
    split <;> simp

theorem wsFreeHead_collapse (l : List Char)
    (h : ∀ c, l.head? = some c → isWs c = false) :
    ∀ c, (collapseWs l).head? = some c → isWs c = false := by
  cases l with
  | nil => intro c hc; simp [collapseWs] at hc
  | cons a t =>
    intro c hc
    have ha := h a rfl
    simp only [collapseWs, ha, Bool.false_eq_true, if_false] at hc
    simp only [List.head?_cons, Option.some.injEq] at hc
    subst hc
    exact ha

theorem wsFreeLast_collapse : ∀ (n : Nat) (l : List Char), l.length ≤ n →
    (∀ c, l.getLast? = some c → isWs c = false) →
    ∀ c, (collapseWs l).getLast? = some c → isWs c = false := by
  intro n
  induction n with
  | zero =>
    intro l hl _ c hc
    have hnil : l = [] := List.length_eq_zero.mp (Nat.le_zero.mp hl)
    subst hnil
    simp [collapseWs] at hc
  | succ n ih =>
    intro l hl hP c hc
    cases l with
    | nil => simp [collapseWs] at hc
    | cons a t =>
      by_cases hws : isWs a = true
      · simp only [collapseWs, hws, if_true] at hc
        by_cases ht : t = []
        · subst ht
          exact absurd (hP a rfl) (by simp [hws])
        · by_cases hd : t.dropWhile isWs = []
          · obtain ⟨x, hx⟩ := getLast?_some_of_ne_nil t ht
            have hxw : isWs x = true :=
              (List.dropWhile_eq_nil_iff.mp hd) x (mem_of_getLast?_eq t x hx)
            have hlast : (a :: t).getLast? = some x := by
              rw [getLast?_cons_ne_nil a t ht, hx]
            exact absurd (hP x hlast) (by simp [hxw])
          · have hcol : collapseWs (t.dropWhile isWs) ≠ [] := collapseWs_ne_nil _ hd
            rw [getLast?_cons_ne_nil ' ' _ hcol] at hc
            refine ih (t.dropWhile isWs) ?_ ?_ c hc
            · have h1 : (t.dropWhile isWs).length ≤ t.length :=
                (List.dropWhile_sublist _).length_le
              simp only [List.length_cons] at hl
              omega
            · intro c' hc'
              rw [getLast?_dropWhile_ne_nil t isWs hd,
                ← getLast?_cons_ne_nil a t ht] at hc'
              exact hP c' hc'
      · simp only [collapseWs, hws, Bool.false_eq_true, if_false] at hc
        by_cases ht : t = []
        · subst ht
          have hca : a = c := by
            simpa [collapseWs] using hc
          subst hca
          simpa using hws
        · have hcol : collapseWs t ≠ [] := collapseWs_ne_nil t ht
          rw [getLast?_cons_ne_nil a _ hcol] at hc
          refine ih t ?_ ?_ c hc
          · simp only [List.length_cons] at hl
            omega
          · intro c' hc'
            rw [← getLast?_cons_ne_nil a t ht] at hc'
            exact hP c' hc'

theorem trimChars_id (l : List Char)
    (hQ : ∀ c, l.head? = some c → isWs c = false)
    (hP : ∀ c, l.getLast? = some c → isWs c = false) : trimChars l = l := by
  unfold trimChars trimLeft
  rw [dropWhile_id_of_head l.reverse isWs
    (fun c hc => hP c (by rwa [List.head?_reverse] at hc))]
  rw [List.reverse_reverse]
  exact dropWhile_id_of_head l isWs hQ

theorem wsFreeHead_trim (l : List Char) :
    ∀ c, (trimChars l).head? = some c → isWs c = false := by
  intro c hc
  unfold trimChars trimLeft at hc
  exact head?_dropWhile _ isWs c hc

theorem wsFreeLast_trim (l : List Char) :
    ∀ c, (trimChars l).getLast? = some c → isWs c = false := by
  intro c hc
  unfold trimChars trimLeft at hc
  by_cases hnil : ((l.reverse.dropWhile isWs).reverse).dropWhile isWs = []
  · rw [hnil] at hc
    exact Option.noConfusion hc
  · rw [getLast?_dropWhile_ne_nil _ _ hnil] at hc
    rw [List.getLast?_reverse] at hc
    exact head?_dropWhile _ isWs c hc

/-- On already-stripped text, the code's preview computation (`replace`,
collapse, `strip`, `[:160]`) agrees with the spec's "collapse internal
whitespace, truncate to 160". -/
theorem previewOf_spec (s : String) :
    previewOf (pyStrip s) = collapsedPreview (pyStrip s) := by
  unfold previewOf collapsedPreview pyStrip
  congr 1
  rw [collapse_map_nl (trimChars s.data).length _ le_rfl]
  rw [trimChars_id _ (wsFreeHead_collapse _ (wsFreeHead_trim s.data))
    (wsFreeLast_collapse (trimChars s.data).length _ le_rfl (wsFreeLast_trim s.data))]

/-! ### C6 — the session list -/

theorem mem_insertDesc (a n : Nat) : ∀ l : List Nat, a ∈ insertDesc n l ↔ a = n ∨ a ∈ l := by
  intro l
  induction l with
  | nil => simp [insertDesc]
  | cons m ms ih =>
    simp only [insertDesc]
    by_cases h : m < n
    · simp [h]
    · rw [if_neg h]
      simp only [List.mem_cons, ih]
      tauto

theorem perm_insertDesc (n : Nat) : ∀ l : List Nat, (insertDesc n l).Perm (n :: l) := by
  intro l
  induction l with
  | nil => simp [insertDesc]
  | cons m ms ih =>
    simp only [insertDesc]
    by_cases h : m < n
    · simp [h]
    · rw [if_neg h]
      exact (ih.cons m).trans (List.Perm.swap n m ms)

theorem perm_sortDesc : ∀ l : List Nat, (sortDesc l).Perm l := by
  intro l
  induction l with
  | nil => exact List.Perm.refl _
  | cons n ns ih => exact (perm_insertDesc n (sortDesc ns)).trans (ih.cons n)

theorem mem_sortDesc (a : Nat) (l : List Nat) : a ∈ sortDesc l ↔ a ∈ l :=
  (perm_sortDesc l).mem_iff

theorem pairwise_insertDesc (n : Nat) : ∀ l : List Nat,
    l.Pairwise (fun a b => b ≤ a) → (insertDesc n l).Pairwise (fun a b => b ≤ a) := by
  intro l
  induction l with
  | nil => intro _; simp [insertDesc]
  | cons m ms ih =>
    intro h
    rw [List.pairwise_cons] at h
    obtain ⟨hm, hms⟩ := h
    simp only [insertDesc]
    by_cases hlt : m < n
    · rw [if_pos hlt]
      rw [List.pairwise_cons]
      constructor
      · intro x hx
        rcases List.mem_cons.mp hx with rfl | hx
        · omega
        · exact le_trans (hm x hx) (by omega)
      · rw [List.pairwise_cons]
        exact ⟨hm, hms⟩
    · rw [if_neg hlt]
      rw [List.pairwise_cons]
      constructor
      · intro x hx
        rcases (mem_insertDesc x n ms).mp hx with rfl | hx
        · omega
        · exact hm x hx
      · exact ih hms

theorem pairwise_sortDesc (l : List Nat) : (sortDesc l).Pairwise (fun a b => b ≤ a) := by
  induction l with
  | nil => exact List.Pairwise.nil
  | cons n ns ih => exact pairwise_insertDesc n (sortDesc ns) ih

theorem find?_eq_of_nodup_mem : ∀ (store : Store) (n : Nat) (d : SessionDir),
    (store.map (·.1)).Nodup → (n, d) ∈ store →
    store.find? (fun p => p.1 == n) = some (n, d) := by
  intro store
  induction store with
  | nil => intro n d _ h; cases h
  | cons q t ih =>
    intro n d hnd hmem
    simp only [List.map_cons, List.nodup_cons] at hnd
    obtain ⟨hq, ht⟩ := hnd
    rcases List.mem_cons.mp hmem with heq | hmem
    · rw [← heq]
      simp [List.find?_cons]
    · by_cases hqn : q.1 = n
      · exfalso
        apply hq
        rw [hqn]
        exact List.mem_map_of_mem _ hmem
      · have hb : (q.1 == n) = false := by simpa using hqn
        rw [List.find?_cons, hb]
        exact ih n d ht hmem

theorem sessionEntry_some (store : Store) (n : Nat) (e : SessionSummary)
    (h : sessionEntry store n = some e) :
    e.id = n ∧ ∃ q : Nat × SessionDir,
      store.find? (fun p => p.1 == n) = some q
      ∧ ∃ m : Manifest, q.2.manifest = some (.readable m) ∧ e = summarize n m := by
  unfold sessionEntry at h
  split at h
  · exact Option.noConfusion h
  · rename_i q heq
    split at h
    · exact Option.noConfusion h
    · exact Option.noConfusion h
    · rename_i m hm
      simp only [Option.some.injEq] at h
      subst h
      exact ⟨rfl, q, heq, m, hm, rfl⟩

theorem filterMap_ids_sublist (f : Nat → Option SessionSummary)
    (hf : ∀ n e, f n = some e → e.id = n) :
    ∀ l : List Nat, ((l.filterMap f).map (fun e => e.id)).Sublist l := by
  intro l
  induction l with
  | nil => simp
  | cons n t ih =>
    rw [List.filterMap_cons]
    cases hb : f n with
    | none => exact ih.cons n
    | some e =>
      rw [List.map_cons]
      rw [hf n e hb]
      exact ih.cons₂ n

/-- **C6.** `list()` returns exactly the sessions with a readable
manifest (missing or unreadable manifests are silently excluded), with
ids pairwise strictly descending (newest first), and each entry carries
the manifest's trimmed title and raw text, with `preview` equal to the
raw text with internal whitespace collapsed to single spaces and
truncated to 160 characters. -/
theorem list_sessions_spec (store : Store) (hnd : (store.map (·.1)).Nodup) :
    (∀ n : Nat, n ∈ (list_sessions store).map (fun e => e.id)
        ↔ ∃ d : SessionDir, (n, d) ∈ store ∧ ∃ m : Manifest, d.manifest = some (.readable m))
    ∧ ((list_sessions store).map (fun e => e.id)).Pairwise (· > ·)
    ∧ (∀ e ∈ list_sessions store, ∃ (d : SessionDir) (m : Manifest),
        (e.id, d) ∈ store ∧ d.manifest = some (.readable m)
        ∧ e.title = pyStrip (truthyOr m.title ("Lesson " ++ toString e.id))
        ∧ e.raw_text = pyStrip (truthyOr m.raw_text "")
        ∧ e.preview = collapsedPreview e.raw_text) := by
  refine ⟨?_, ?_, ?_⟩
  · intro n
    constructor
    · intro hn
      rw [List.mem_map] at hn
      obtain ⟨e, he, hid⟩ := hn
      unfold list_sessions at he
      rw [List.mem_filterMap] at he
      obtain ⟨k, _, hk⟩ := he
      obtain ⟨hkid, q, hfind, m, hm, _⟩ := sessionEntry_some store k e hk
      have hq1 : q.1 = k := by simpa using List.find?_some hfind
      have hqmem : q ∈ store := List.mem_of_find?_eq_some hfind
      refine ⟨q.2, ?_, m, hm⟩
      have hkn : k = n := by rw [← hkid]; exact hid
      have : (q.1, q.2) = (n, q.2) := by rw [hq1, hkn]
      exact this ▸ hqmem
    · intro hd
      obtain ⟨d, hmem, m, hm⟩ := hd
      have hentry : sessionEntry store n = some (summarize n m) := by
        unfold sessionEntry
        simp only [find?_eq_of_nodup_mem store n d hnd hmem, hm]
      rw [List.mem_map]
      refine ⟨summarize n m, ?_, rfl⟩
      unfold list_sessions
      rw [List.mem_filterMap]
      refine ⟨n, ?_, hentry⟩
      rw [mem_sortDesc]
      exact List.mem_map_of_mem _ hmem
  · have hsorted := pairwise_sortDesc (store.map (·.1))
    have hnodup : (sortDesc (store.map (·.1))).Nodup := ((perm_sortDesc _).symm).nodup hnd
    have hcomb := hsorted.and hnodup
    have hgt : (sortDesc (store.map (·.1))).Pairwise (· > ·) :=
      hcomb.imp (fun hab => by omega)
    have hsub := filterMap_ids_sublist (sessionEntry store)
      (fun n e he => (sessionEntry_some store n e he).1) (sortDesc (store.map (·.1)))
    exact hgt.sublist hsub
  · intro e he
    unfold list_sessions at he
    rw [List.mem_filterMap] at he
    obtain ⟨k, _, hk⟩ := he
    obtain ⟨hkid, q, hfind, m, hm, hsum⟩ := sessionEntry_some store k e hk
    have hq1 : q.1 = k := by simpa using List.find?_some hfind
    have hqmem : q ∈ store := List.mem_of_find?_eq_some hfind
    refine ⟨q.2, m, ?_, hm, ?_, ?_, ?_⟩
    · have : (q.1, q.2) = (e.id, q.2) := by rw [hq1, hkid]
      exact this ▸ hqmem
    · rw [hsum]
      rfl
    · rw [hsum]
      rfl
    · rw [hsum]
      exact previewOf_spec (truthyOr m.raw_text "")

/-- Witness for C6: sessions 1 and 3 exist (2 was deleted); the list ids
are `[3, 1]`. -/
theorem list_sessions_spec_witness :
    (list_sessions
        [(1, { manifest := some (.readable { title := some "T1", raw_text := some "a" }) }),
         (3, { manifest := some (.readable { title := some "T3", raw_text := some "b" }) })]).map
      (fun e => e.id) = [3, 1] := by
  have h := list_sessions_spec
    [(1, { manifest := some (.readable { title := some "T1", raw_text := some "a" }) }),
     (3, { manifest := some (.readable { title := some "T3", raw_text := some "b" }) })]
    (by decide)
  decide

/-- Witness for C9: `" FRENCH-Only "` behaves as `"french-only"`. -/
theorem download_variant_normalized_witness :
    download_lesson_audio { variant := some " FRENCH-Only ", segments := some [] }
      = download_lesson_audio { variant := some "french-only", segments := some [] } := by
  have h := download_variant_normalized
    { variant := some " FRENCH-Only ", segments := some [] } " FRENCH-Only " rfl (by decide)
  have he : pyLower (pyStrip " FRENCH-Only ") = "french-only" := by decide
  rw [he] at h
  exact h

end LangAudio
